import Mathlib

/-!
ggproxy: a shallow embedding of the proxy core, and its properties.

The Go sources `auth.go`, `utils.go`, `http.go`, `http-debug.go`, `main.go` and
`config.go` are translated function by function; the quiet handler is
`handleHTTP` of `http.go`, the debug handler is `handleHTTPDebug` of
`http-debug.go`.

Conventions of the embedding.

* A Go `string` / `[]byte` is a `List Char`, one `Char` per byte.
* A socket is split into the byte stream that arrives on it (an input list;
  when the list is exhausted the next read fails with EOF or a deadline error)
  and the bytes written to it (an output list). Writes do not fail, and the
  relay copies a stream to its end.
* `net.Dial` and `url.Parse` belong to the Go runtime and are parameters of the
  embedding (`Env`); so is `time.ParseDuration`, a parameter of `loadConfig`.
  An `int` has 64 bits.
* `parseRequestLine` and `readHeaders`, which `http-debug.go` calls and no source
  file defines, are parameters of the debug handler (`Helpers`); `specHelpers`
  instantiates them as the specification describes them.
* Log events are not part of the embedding: they never influence a socket.
* Loops over the input carry a fuel argument, set to the length of the input;
  the section on fuel shows that this is always enough.
-/

namespace GGProxy

/-- Go strings and byte slices. -/
abbrev Str := List Char

/-! ## The pieces of the Go standard library used by the proxy -/

/-- Go `strings.HasPrefix(s, p)`. -/
def HasPrefix (s p : Str) : Bool := p.isPrefixOf s

/-- Go `strings.HasSuffix(s, p)`. -/
def HasSuffix (s p : Str) : Bool := p.reverse.isPrefixOf s.reverse

/-- Go `strings.IndexByte(s, c)`; `none` stands for the result `-1`. -/
def IndexByte : Str → Char → Option Nat
  | [], _ => none
  | x :: xs, c => if x = c then some 0 else (IndexByte xs c).map (· + 1)

/-- Go `strings.LastIndexByte(s, c)`; `none` stands for the result `-1`. -/
def LastIndexByte (s : Str) (c : Char) : Option Nat :=
  (IndexByte s.reverse c).map (fun i => s.length - 1 - i)

/-- Go `strings.TrimRight(s, cutset)` for an ASCII cutset: drop the trailing
bytes that occur in `cutset`. -/
def TrimRight (s cutset : Str) : Str := s.rdropWhile (fun c => cutset.contains c)

/-- The table `asciiSpace` of package `strings`. -/
def asciiSpace (c : Char) : Bool :=
  c = '\t' || c = '\n' || c = Char.ofNat 11 || c = Char.ofNat 12 || c = '\r' || c = ' '

/-- UTF-8 encodings of the non-ASCII runes for which `unicode.IsSpace` holds:
U+0085, U+00A0, U+1680, U+2000..U+200A, U+2028, U+2029, U+202F, U+205F, U+3000. -/
def unicodeSpaceEncodings : List (List Nat) :=
  [[0xC2, 0x85], [0xC2, 0xA0], [0xE1, 0x9A, 0x80],
   [0xE2, 0x80, 0x80], [0xE2, 0x80, 0x81], [0xE2, 0x80, 0x82], [0xE2, 0x80, 0x83],
   [0xE2, 0x80, 0x84], [0xE2, 0x80, 0x85], [0xE2, 0x80, 0x86], [0xE2, 0x80, 0x87],
   [0xE2, 0x80, 0x88], [0xE2, 0x80, 0x89], [0xE2, 0x80, 0x8A],
   [0xE2, 0x80, 0xA8], [0xE2, 0x80, 0xA9], [0xE2, 0x80, 0xAF], [0xE2, 0x81, 0x9F],
   [0xE3, 0x80, 0x80]]

/-- Length in bytes of the white-space rune at the front of `s` (0 when `s`
does not start with white space). -/
def leadingSpaceLen (s : Str) : Nat :=
  match s with
  | [] => 0
  | c :: _ =>
    if asciiSpace c then 1
    else match unicodeSpaceEncodings.find? (fun e => e.isPrefixOf (s.map Char.toNat)) with
      | some e => e.length
      | none => 0

/-- Go `strings.TrimLeftFunc(s, unicode.IsSpace)`; `fuel` bounds the number of runes. -/
def trimLeftSpace : Nat → Str → Str
  | 0, s => s
  | fuel + 1, s =>
    match leadingSpaceLen s with
    | 0 => s
    | k => trimLeftSpace fuel (s.drop k)

/-- Length in bytes of the white-space rune at the end of `s` (0 when there is none). -/
def trailingSpaceLen (s : Str) : Nat :=
  match s.reverse with
  | [] => 0
  | c :: _ =>
    if asciiSpace c then 1
    else match unicodeSpaceEncodings.find? (fun e => e.reverse.isPrefixOf (s.reverse.map Char.toNat)) with
      | some e => e.length
      | none => 0

/-- Go `strings.TrimRightFunc(s, unicode.IsSpace)`; `fuel` bounds the number of runes. -/
def trimRightSpace : Nat → Str → Str
  | 0, s => s
  | fuel + 1, s =>
    match trailingSpaceLen s with
    | 0 => s
    | k => trimRightSpace fuel (s.take (s.length - k))

/-- Go `strings.TrimSpace(s)`: white space (in the sense of `unicode.IsSpace`)
removed at both ends. -/
def TrimSpace (s : Str) : Str :=
  let t := trimLeftSpace s.length s
  trimRightSpace t.length t

/-- One byte of Go `strings.ToUpper` on an ASCII string. -/
def upperByte (c : Char) : Char :=
  if 'a' ≤ c ∧ c ≤ 'z' then Char.ofNat (c.toNat - 32) else c

/-- Go `strings.ToUpper(s)`. ASCII letters are mapped exactly. A string with a
non-ASCII byte is mapped rune by rune with `unicode.ToUpper` in Go; the only
non-ASCII runes with an ASCII upper case are U+0131 and U+017F (giving `I` and
`S`), so comparing the result with `"CONNECT"` is not affected by leaving
non-ASCII bytes unchanged here. -/
def ToUpper (s : Str) : Str := s.map upperByte

/-- The loop of Go `strings.genSplit` for a one-byte separator: cut `s` at the
first `n` occurrences of `sep`. -/
def splitLoop (sep : Char) : Nat → Str → List Str
  | 0, s => [s]
  | n + 1, s =>
    match IndexByte s sep with
    | none => [s]
    | some m => s.take m :: splitLoop sep n (s.drop (m + 1))

/-- Go `strings.SplitN(s, sep, n)` for a one-byte separator `sep` and `n > 0`
(`n = 0` returns the empty list as in Go). -/
def SplitN (s : Str) (sep : Char) (n : Nat) : List Str :=
  if n = 0 then [] else splitLoop sep (min n (s.length + 1) - 1) s

/-- Go `bufio.Reader.ReadString(delim)` on the bytes still to arrive: the line
up to and including the first `delim`, and the bytes left in the reader;
`none` when the stream ends before a `delim` (the Go call returns an error). -/
def ReadString (delim : Char) : Str → Option (Str × Str)
  | [] => none
  | c :: cs =>
    if c = delim then some ([c], cs)
    else match ReadString delim cs with
      | none => none
      | some (line, rest) => some (c :: line, rest)

/-- Go `io.ReadFull(r, buf[:n])` on the bytes still to arrive: exactly `n`
bytes and the rest of the stream; `none` when fewer than `n` bytes arrive. -/
def ReadFull (n : Nat) (s : Str) : Option (Str × Str) :=
  if n ≤ s.length then some (s.take n, s.drop n) else none

/-- Go `subtle.ConstantTimeByteEq`-style accumulation used by
`subtle.ConstantTimeCompare`: the bitwise or of the byte-wise xors. -/
def xorAcc : Nat → Str → Str → Nat
  | v, x :: xs, y :: ys => xorAcc (v ||| (x.toNat ^^^ y.toNat)) xs ys
  | v, _, _ => v

/-- Go `subtle.ConstantTimeCompare(x, y)`: 1 when the slices are equal, 0
otherwise (0 at once when the lengths differ). -/
def ConstantTimeCompare (x y : Str) : Nat :=
  if x.length ≠ y.length then 0
  else if xorAcc 0 x y = 0 then 1 else 0

/-! ## `net.IP`, `net.IPNet` (Go package `net`) -/

/-- Go `net.IP`: a slice of bytes, 4 of them for IPv4 and 16 for IPv6; the
empty list is Go's `nil`. -/
abbrev NetIP := List Nat

/-- Go `net.IPNet`. -/
structure IPNet where
  IP : NetIP
  Mask : List Nat
deriving DecidableEq, Repr

/-- Go `IP.To4`: the 4-byte form of an IPv4 address (also of an IPv4-mapped
16-byte address `::ffff:a.b.c.d`), `none` (Go `nil`) for anything else. -/
def To4 (ip : NetIP) : Option NetIP :=
  if ip.length = 4 then some ip
  else if ip.length = 16 ∧ (ip.take 10).all (· = 0) ∧ ip.get? 10 = some 0xff ∧ ip.get? 11 = some 0xff then
    some (ip.drop 12)
  else none

/-- Go `net.networkNumberAndMask`; `none` stands for the result `nil, nil`. -/
def networkNumberAndMask (n : IPNet) : Option (NetIP × List Nat) :=
  let ip? : Option NetIP :=
    match To4 n.IP with
    | some ip4 => some ip4
    | none => if n.IP.length ≠ 16 then none else some n.IP
  match ip? with
  | none => none
  | some ip =>
    if n.Mask.length = 4 then
      if ip.length ≠ 4 then none else some (ip, n.Mask)
    else if n.Mask.length = 16 then
      if ip.length = 4 then some (ip, n.Mask.drop 12) else some (ip, n.Mask)
    else none

/-- The comparison loop of `IPNet.Contains`: `nn[i]&m[i] == ip[i]&m[i]` for
every index `i < len(ip)`. -/
def maskedEq : List Nat → List Nat → List Nat → Bool
  | nn :: nns, m :: ms, x :: xs => (nn &&& m) = (x &&& m) && maskedEq nns ms xs
  | _, _, [] => true
  | _, _, _ => false

/-- Go `(*IPNet).Contains(ip)`. -/
def IPNet.Contains (n : IPNet) (ip : NetIP) : Bool :=
  match networkNumberAndMask n with
  | none => ip.length = 0
  | some (nn, m) =>
    let ip := match To4 ip with
      | some x => x
      | none => ip
    if ip.length ≠ nn.length then false else maskedEq nn m ip

/-- Go `net.CIDRMask(ones, 32)` byte by byte. -/
def CIDRMask4 (ones : Nat) : List Nat :=
  (List.range 4).map (fun i =>
    if 8 * (i + 1) ≤ ones then 0xff
    else if ones ≤ 8 * i then 0
    else 256 - 2 ^ (8 - (ones - 8 * i)))

/-- The `*net.IPNet` that `net.ParseCIDR` returns for the IPv4 text
`a.b.c.d/ones`: the address masked with the prefix mask, and the mask. -/
def parsedIPv4Net (addr : List Nat) (ones : Nat) : IPNet :=
  { IP := List.zipWith (· &&& ·) addr (CIDRMask4 ones), Mask := CIDRMask4 ones }

/-- The `for _, n := range networks` loop of `isAllowed`. -/
def isAllowedLoop (ip4 : NetIP) : List IPNet → Bool
  | [] => false
  | n :: rest => if n.Contains ip4 then true else isAllowedLoop ip4 rest

/-- Function `isAllowed` of `utils.go`. -/
def isAllowed (ip : NetIP) (networks : List IPNet) : Bool :=
  match To4 ip with
  | none => false
  | some ip4 => isAllowedLoop ip4 networks

/-! ## Go `encoding/base64`, `StdEncoding.DecodeString` -/

/-- The table `decodeMap` of `base64.StdEncoding`: the 6-bit value of a byte of
the alphabet `A-Z a-z 0-9 + /`, `none` (Go `0xff`) for every other byte. -/
def decodeMap (c : Char) : Option Nat :=
  if 'A' ≤ c ∧ c ≤ 'Z' then some (c.toNat - 65)
  else if 'a' ≤ c ∧ c ≤ 'z' then some (c.toNat - 97 + 26)
  else if '0' ≤ c ∧ c ≤ '9' then some (c.toNat - 48 + 52)
  else if c = '+' then some 62
  else if c = '/' then some 63
  else none

/-- The loops `for si < len(src) && (src[si] == '\n' || src[si] == '\r')` of
`decodeQuantum`. -/
def skipNewlines : Str → Str
  | [] => []
  | c :: cs => if c = '\n' ∨ c = '\r' then skipNewlines cs else c :: cs

/-- The character loop of `decodeQuantum` for an encoding with padding:
`dbuf` holds the 6-bit values read so far (`j = dbuf.length`). The result is
the values of the quantum and the unread input, or `none` for a
`CorruptInputError` (trailing garbage after the padding included). -/
def readQuantum : List Nat → Str → Option (List Nat × Str)
  | dbuf, [] => if dbuf.length = 0 then some ([], []) else none
  | dbuf, c :: cs =>
    match decodeMap c with
    | some v => if dbuf.length = 3 then some (dbuf ++ [v], cs) else readQuantum (dbuf ++ [v]) cs
    | none =>
      if c = '\n' ∨ c = '\r' then readQuantum dbuf cs
      else if c ≠ '=' then none
      else if dbuf.length < 2 then none
      else if dbuf.length = 2 then
        match skipNewlines cs with
        | [] => none
        | d :: ds =>
          if d ≠ '=' then none
          else if skipNewlines ds ≠ [] then none
          else some (dbuf, [])
      else if skipNewlines cs ≠ [] then none
      else some (dbuf, [])

/-- The conversion at the end of `decodeQuantum` (non-strict): the values are
packed into 24 bits and `dlen - 1` bytes are produced. -/
def quantumBytes (dbuf : List Nat) : Str :=
  let val := (dbuf.getD 0 0) <<< 18 ||| (dbuf.getD 1 0) <<< 12 ||| (dbuf.getD 2 0) <<< 6 ||| (dbuf.getD 3 0)
  ([val >>> 16 % 256, val >>> 8 % 256, val % 256].take (dbuf.length - 1)).map Char.ofNat

/-- The loop `for si < len(src)` of `Encoding.Decode`; every round consumes at
least one byte, so `fuel = len(src)` rounds are enough. -/
def decodeLoop : Nat → Str → Option Str
  | 0, _ => some []
  | fuel + 1, src =>
    if src = [] then some []
    else match readQuantum [] src with
      | none => none
      | some (dbuf, rest) =>
        match decodeLoop fuel rest with
        | none => none
        | some out => some (quantumBytes dbuf ++ out)

/-- Go `base64.StdEncoding.DecodeString(s)`; `none` when Go returns an error. -/
def DecodeString (s : Str) : Option Str := decodeLoop s.length s

/-! ## `auth.go` -/

/-- Modelled from the spec: the fields `AuthRequired`, `AuthUsername` and
`AuthPassword` that `auth.go` and `http-debug.go` read from the global `cfg`;
the `Config` struct of `config.go` does not declare them. The spec lists
"proxy credentials (username, password) and a derived boolean auth required". -/
structure AuthConfig where
  AuthRequired : Bool
  AuthUsername : Str
  AuthPassword : Str
deriving DecidableEq, Repr

/-- Function `validateAuth` of `auth.go`. -/
def validateAuth (cfg : AuthConfig) (authHeader : Str) : Bool :=
  if !cfg.AuthRequired then true
  else if authHeader = [] then false
  else if !HasPrefix authHeader "Basic ".toList then false
  else
    let encoded := authHeader.drop 6
    match DecodeString encoded with
    | none => false
    | some creds =>
      match IndexByte creds ':' with
      | none => false
      | some colonIndex =>
        let username := creds.take colonIndex
        let password := creds.drop (colonIndex + 1)
        ConstantTimeCompare username cfg.AuthUsername = 1 &&
          ConstantTimeCompare password cfg.AuthPassword = 1

/-- What `authenticateSocks` leaves behind: its return value and the bytes it
wrote to the client. -/
structure SocksAuthResult where
  ok : Bool
  written : Str
deriving DecidableEq, Repr

/-- Function `authenticateSocks` of `auth.go`; `client` is the byte stream that
arrives from the client. -/
def authenticateSocks (cfg : AuthConfig) (client : Str) : SocksAuthResult :=
  match ReadFull 2 client with
  | none => ⟨false, []⟩
  | some (buf, client) =>
    let version := (buf.getD 0 default).toNat
    let ulen := (buf.getD 1 default).toNat
    if version ≠ 0x01 ∨ ulen > 255 then ⟨false, []⟩
    else match ReadFull ulen client with
      | none => ⟨false, []⟩
      | some (username, client) =>
        match ReadFull 1 client with
        | none => ⟨false, []⟩
        | some (buf, client) =>
          let plen := (buf.getD 0 default).toNat
          if plen > 255 then ⟨false, []⟩
          else match ReadFull plen client with
            | none => ⟨false, []⟩
            | some (password, _) =>
              if ConstantTimeCompare username cfg.AuthUsername = 1 ∧
                  ConstantTimeCompare password cfg.AuthPassword = 1 then
                ⟨true, [Char.ofNat 0x01, Char.ofNat 0x00]⟩
              else
                ⟨false, [Char.ofNat 0x01, Char.ofNat 0x01]⟩

/-! ## Go `net/url`: the methods of `*url.URL` used by the proxy -/

/-- Go `url.URL`, with the fields that `Hostname`, `Port` and `RequestURI` read. -/
structure URL where
  Scheme : Str := []
  Opaque : Str := []
  Host : Str := []
  Path : Str := []
  RawPath : Str := []
  ForceQuery : Bool := false
  RawQuery : Str := []
deriving DecidableEq, Repr

/-- Go `url.validOptionalPort`. -/
def validOptionalPort (port : Str) : Bool :=
  match port with
  | [] => true
  | c :: digits => if c ≠ ':' then false else digits.all (fun b => '0' ≤ b ∧ b ≤ '9')

/-- Go `url.splitHostPort`. -/
def splitHostPort (hostPort : Str) : Str × Str :=
  let hp : Str × Str :=
    match LastIndexByte hostPort ':' with
    | none => (hostPort, [])
    | some colon =>
      if validOptionalPort (hostPort.drop colon) then (hostPort.take colon, hostPort.drop (colon + 1))
      else (hostPort, [])
  if HasPrefix hp.1 ['['] && HasSuffix hp.1 [']'] then ((hp.1.drop 1).take (hp.1.length - 2), hp.2)
  else hp

/-- Go `(*URL).Hostname`. -/
def URL.Hostname (u : URL) : Str := (splitHostPort u.Host).1

/-- Go `(*URL).Port`. -/
def URL.Port (u : URL) : Str := (splitHostPort u.Host).2

/-- Go `url.shouldEscape(c, encodePath)`. -/
def shouldEscapePath (c : Char) : Bool :=
  if ('a' ≤ c ∧ c ≤ 'z') ∨ ('A' ≤ c ∧ c ≤ 'Z') ∨ ('0' ≤ c ∧ c ≤ '9') then false
  else if c = '-' ∨ c = '_' ∨ c = '.' ∨ c = '~' then false
  else if c = '$' ∨ c = '&' ∨ c = '+' ∨ c = ',' ∨ c = '/' ∨ c = ':' ∨ c = ';' ∨ c = '=' ∨ c = '?' ∨ c = '@' then
    c = '?'
  else true

/-- Go `url.ishex`. -/
def ishex (c : Char) : Bool :=
  ('0' ≤ c ∧ c ≤ '9') ∨ ('a' ≤ c ∧ c ≤ 'f') ∨ ('A' ≤ c ∧ c ≤ 'F')

/-- Go `url.unhex`. -/
def unhex (c : Char) : Nat :=
  if '0' ≤ c ∧ c ≤ '9' then c.toNat - 48
  else if 'a' ≤ c ∧ c ≤ 'f' then c.toNat - 97 + 10
  else if 'A' ≤ c ∧ c ≤ 'F' then c.toNat - 65 + 10
  else 0

/-- Go `url.validEncoded(s, encodePath)`. -/
def validEncodedPath (s : Str) : Bool :=
  s.all (fun c =>
    if c = '!' ∨ c = '$' ∨ c = '&' ∨ c = Char.ofNat 39 ∨ c = '(' ∨ c = ')' ∨ c = '*' ∨ c = '+' ∨
        c = ',' ∨ c = ';' ∨ c = '=' ∨ c = ':' ∨ c = '@' then true
    else if c = '[' ∨ c = ']' then true
    else if c = '%' then true
    else !shouldEscapePath c)

/-- Go `url.unescape(s, encodePath)`; `none` for an `EscapeError`. -/
def unescapePath : Str → Option Str
  | [] => some []
  | '%' :: a :: b :: rest =>
    if ishex a && ishex b then (unescapePath rest).map (Char.ofNat (unhex a * 16 + unhex b) :: ·)
    else none
  | c :: rest => if c = '%' then none else (unescapePath rest).map (c :: ·)

/-- The digits `upperhex` of package `url`. -/
def upperhex (n : Nat) : Char :=
  if n < 10 then Char.ofNat (48 + n) else Char.ofNat (65 + (n - 10))

/-- Go `url.escape(s, encodePath)`. -/
def escapePath (s : Str) : Str :=
  s.flatMap (fun c => if shouldEscapePath c then ['%', upperhex (c.toNat / 16), upperhex (c.toNat % 16)] else [c])

/-- Go `(*URL).EscapedPath`. -/
def URL.EscapedPath (u : URL) : Str :=
  if u.RawPath ≠ [] ∧ validEncodedPath u.RawPath ∧ unescapePath u.RawPath = some u.Path then u.RawPath
  else if u.Path = ['*'] then ['*']
  else escapePath u.Path

/-- Go `(*URL).RequestURI`. -/
def URL.RequestURI (u : URL) : Str :=
  let result :=
    if u.Opaque = [] then
      (if u.EscapedPath = [] then ['/'] else u.EscapedPath)
    else if HasPrefix u.Opaque "//".toList then u.Scheme ++ ":".toList ++ u.Opaque
    else u.Opaque
  if u.ForceQuery ∨ u.RawQuery ≠ [] then result ++ "?".toList ++ u.RawQuery else result

/-- Go `strings.ToLower(s)`. An ASCII capital becomes its small letter. Of the
runes outside ASCII, `unicode.ToLower` maps two to an ASCII letter: U+0130
(bytes C4 B0) to `i` and U+212A (bytes E2 84 AA) to `k`; so does this function.
Every other rune outside ASCII, and every byte that is not UTF-8, is bytes
outside ASCII in the result of Go; such bytes are left as they are here, which
changes no comparison of the result with an ASCII string or an ASCII prefix. -/
def ToLower : Str → Str
  | [] => []
  | c :: cs =>
    if 'A' ≤ c ∧ c ≤ 'Z' then Char.ofNat (c.toNat + 32) :: ToLower cs
    else if c.toNat = 0xC4 then
      match cs with
      | [] => [c]
      | d :: rest => if d.toNat = 0xB0 then 'i' :: ToLower rest else c :: ToLower (d :: rest)
    else if c.toNat = 0xE2 then
      match cs with
      | d :: e :: rest =>
        if d.toNat = 0x84 ∧ e.toNat = 0xAA then 'k' :: ToLower rest
        else c :: ToLower (d :: e :: rest)
      | rest => c :: ToLower rest
    else c :: ToLower cs

/-- Go `net.JoinHostPort(host, port)`. -/
def JoinHostPort (host port : Str) : Str :=
  if (IndexByte host ':').isSome then "[".toList ++ host ++ "]:".toList ++ port
  else host ++ ":".toList ++ port

/-! ## `http.go`: request-target parsing -/

/-- Function `parseHostPortFromAbsoluteURI` of `http.go`. `urlParse` is Go's
`url.Parse` (`none` when it returns an error); the result is
`(hostPort, newFirstLine)`, or `none` when the Go function returns an error. -/
def parseHostPortFromAbsoluteURI (urlParse : Str → Option URL)
    (method requestURI httpVersion : Str) : Option (Str × Str) :=
  match urlParse requestURI with
  | none => none
  | some u =>
    let host := u.Hostname
    let port := u.Port
    let scheme := ToLower u.Scheme
    let port := if port = [] then (if scheme = "https".toList then "443".toList else "80".toList) else port
    let hostPort := JoinHostPort host port
    let newFirstLine := method ++ " ".toList ++ u.RequestURI ++ " ".toList ++ httpVersion
    some (hostPort, newFirstLine)

/-! ## The connection model -/

/-- The Go runtime around one connection. `urlParse` is `url.Parse`.
`dial target` is `net.Dial("tcp", target)`: `none` when the dial fails,
otherwise the remote peer, given as the bytes it sends back in answer to the
bytes it receives. -/
structure Env where
  urlParse : Str → Option URL
  dial : Str → Option (Str → Str)

/-- What a handler did to its sockets: the bytes written to the client, the
targets passed to `net.Dial` (in order), the bytes written to the remote, and
whether `client.Close()` ran. -/
structure Outcome where
  clientOut : Str
  dialed : List Str
  remoteOut : Str
  closed : Bool
deriving DecidableEq, Repr

/-- Function `copyWithPool` of `utils.go`: `io.CopyBuffer(dst, src, buf)` moves
the bytes of `src` to `dst` until `src` is at its end; `dst` is what was written
to the destination before. -/
def copyWithPool (dst src : Str) : Str := dst ++ src

/-- The two relay goroutines that end every successful handler path:
`copyWithPool(remote, reader)` and `copyWithPool(client, remote)`.
`toClient` and `toRemote` are the bytes written to the two sockets before the
relay starts, `reader` the bytes of the client not consumed yet. -/
def relay (peer : Str → Str) (target toClient toRemote reader : Str) : Outcome :=
  let remoteOut := copyWithPool toRemote reader
  { clientOut := copyWithPool toClient (peer remoteOut),
    dialed := [target],
    remoteOut := remoteOut,
    closed := false }

/-- A handler path that writes `msg` to the client and returns, after the
targets `dialed` were dialled without success. -/
def reply (msg : Str) (dialed : List Str) : Outcome :=
  { clientOut := msg, dialed := dialed, remoteOut := [], closed := false }

/-- The status line `HTTP/1.1 400 Bad Request`. -/
def badRequest : Str := "HTTP/1.1 400 Bad Request\r\n\r\n".toList

/-- The status line `HTTP/1.1 502 Bad Gateway`. -/
def badGateway : Str := "HTTP/1.1 502 Bad Gateway\r\n\r\n".toList

/-- The 407 answer written by `handleHTTPDebug`. -/
def proxyAuthRequired : Str :=
  "HTTP/1.1 407 Proxy Authentication Required\r\nProxy-Authenticate: Basic realm=\"GGProxy\"\r\n\r\n".toList

/-- The deferred `client.Close()` of `handleHTTP` and `handleHTTPDebug`. -/
def Outcome.close (o : Outcome) : Outcome := { o with closed := true }

/-! ## `http.go`: the quiet handler -/

/-- The header loop of `handleHTTPConnect`: read lines up to the first line that
is `"\r\n"` or `"\n"`; the result is the reader after that line, `none` when a
read fails first. Every round consumes a byte, so `fuel = len(reader)` rounds
are enough. -/
def drainHeaders : Nat → Str → Option Str
  | 0, _ => none
  | fuel + 1, reader =>
    match ReadString '\n' reader with
    | none => none
    | some (line, reader) =>
      if line = "\r\n".toList ∨ line = "\n".toList then some reader
      else drainHeaders fuel reader

/-- Function `handleHTTPConnect` of `http.go`. -/
def handleHTTPConnect (env : Env) (reader hostPort httpVersion : Str) : Outcome :=
  match drainHeaders reader.length reader with
  | none => reply (httpVersion ++ " 500 Internal Server Error\r\n\r\n".toList) []
  | some reader =>
    match env.dial hostPort with
    | none => reply (httpVersion ++ " 502 Bad Gateway\r\n\r\n".toList) [hostPort]
    | some peer =>
      relay peer hostPort (httpVersion ++ " 200 Connection Established\r\n\r\n".toList) [] reader

/-- Lines 174-181 of `handleHTTP`: the request line cut into method,
request-target and version; `none` on the path that answers 400. The first
component is the line without its line end. -/
def requestLineParts (line : Str) : Option (Str × Str × Str × Str) :=
  let line := TrimRight line "\r\n".toList
  let parts := SplitN (TrimSpace line) ' ' 3
  if parts.length < 3 ∨ parts.getD 0 [] = [] ∨ parts.getD 1 [] = [] ∨ parts.getD 2 [] = [] then none
  else some (line, parts.getD 0 [], parts.getD 1 [], parts.getD 2 [])

/-- Lines 188-231 of `handleHTTP`: the forward-proxy path. -/
def forwardHTTP (env : Env) (line reader method requestURI version : Str) : Outcome :=
  match parseHostPortFromAbsoluteURI env.urlParse method requestURI version with
  | none => reply badRequest []
  | some (hostPort, newFirstLine) =>
    match env.dial hostPort with
    | none => reply badGateway [hostPort]
    | some peer =>
      let firstLine := if newFirstLine ≠ [] then newFirstLine else line
      relay peer hostPort [] (firstLine ++ "\r\n".toList) reader

/-- Lines 183-231 of `handleHTTP`: routing on the method. -/
def routeHTTP (env : Env) (line reader method requestURI version : Str) : Outcome :=
  if ToUpper method = "CONNECT".toList then handleHTTPConnect env reader requestURI version
  else forwardHTTP env line reader method requestURI version

/-- Function `handleHTTP` of `http.go`; `client` is the byte stream that arrives
from the client. -/
def handleHTTP (env : Env) (client : Str) : Outcome :=
  Outcome.close <|
    match ReadString '\n' client with
    | none => reply [] []
    | some (line, reader) =>
      match requestLineParts line with
      | none => reply badRequest []
      | some (line, method, requestURI, version) => routeHTTP env line reader method requestURI version

/-! ## `http-debug.go`: the debug handler -/

/-- Go `map[string]string` as the list of its entries in the order in which
`range` yields them (an order Go leaves unspecified). -/
abbrev Headers := List (Str × Str)

/-- Go map indexing `headers[key]`: the empty string for a missing key. -/
def Headers.index (headers : Headers) (key : Str) : Str :=
  match headers.lookup key with
  | some v => v
  | none => []

/-- The functions that `http-debug.go` calls but the sources do not define:
`parseRequestLine` and `readHeaders` (`none` when they return an error;
`readHeaders` also returns the reader behind the header block). -/
structure Helpers where
  parseRequestLine : Str → Option (Str × Str × Str)
  readHeaders : Str → Option (Headers × Str)

/-- Function `handleHTTPConnectDebug` of `http-debug.go`. -/
def handleHTTPConnectDebug (env : Env) (reader hostPort httpVersion : Str) : Outcome :=
  match env.dial hostPort with
  | none => reply (httpVersion ++ " 502 Bad Gateway\r\n\r\n".toList) [hostPort]
  | some peer =>
    relay peer hostPort (httpVersion ++ " 200 Connection Established\r\n\r\n".toList) [] reader

/-- The loop `for key, value := range headers` of `handleHTTPDebug`: one line
`key: value` for every entry whose key is not `proxy-authorization`. -/
def forwardHeaders : Headers → Str
  | [] => []
  | (key, value) :: rest =>
    if key ≠ "proxy-authorization".toList then
      key ++ ": ".toList ++ value ++ "\r\n".toList ++ forwardHeaders rest
    else forwardHeaders rest

/-- Lines 67-122 of `handleHTTPDebug`: the forward-proxy path. -/
def forwardHTTPDebug (env : Env) (line reader method requestURI version : Str)
    (headers : Headers) : Outcome :=
  match parseHostPortFromAbsoluteURI env.urlParse method requestURI version with
  | none => reply badRequest []
  | some (hostPort, newFirstLine) =>
    match env.dial hostPort with
    | none => reply badGateway [hostPort]
    | some peer =>
      let first := if newFirstLine ≠ [] then newFirstLine ++ "\r\n".toList else line
      relay peer hostPort [] (first ++ forwardHeaders headers ++ "\r\n".toList) reader

/-- Lines 57-122 of `handleHTTPDebug`: routing on the method. -/
def routeHTTPDebug (env : Env) (line reader method requestURI version : Str)
    (headers : Headers) : Outcome :=
  if method = "CONNECT".toList ∨ method = "connect".toList then
    handleHTTPConnectDebug env reader requestURI version
  else forwardHTTPDebug env line reader method requestURI version headers

/-- Lines 47-122 of `handleHTTPDebug`: authentication, then routing. -/
def authHTTPDebug (env : Env) (cfg : AuthConfig) (line reader method requestURI version : Str)
    (headers : Headers) : Outcome :=
  if cfg.AuthRequired ∧ validateAuth cfg (headers.index "proxy-authorization".toList) = false then
    reply proxyAuthRequired []
  else routeHTTPDebug env line reader method requestURI version headers

/-- Lines 39-122 of `handleHTTPDebug`: header collection, then authentication. -/
def headersHTTPDebug (h : Helpers) (env : Env) (cfg : AuthConfig)
    (line reader method requestURI version : Str) : Outcome :=
  match h.readHeaders reader with
  | none => reply badRequest []
  | some (headers, reader) => authHTTPDebug env cfg line reader method requestURI version headers

/-- Function `handleHTTPDebug` of `http-debug.go`; `client` is the byte stream
that arrives from the client. -/
def handleHTTPDebug (h : Helpers) (env : Env) (cfg : AuthConfig) (client : Str) : Outcome :=
  Outcome.close <|
    match ReadString '\n' client with
    | none => reply [] []
    | some (line, reader) =>
      match h.parseRequestLine line with
      | none => reply badRequest []
      | some (method, requestURI, version) =>
        headersHTTPDebug h env cfg line reader method requestURI version

/-! ## The helpers of the debug handler, from the spec -/

/-- Split `s` around runs of white-space bytes; `cur` is the field being read. -/
def fieldsAux : Str → Str → List Str
  | cur, [] => if cur = [] then [] else [cur]
  | cur, c :: cs =>
    if asciiSpace c then (if cur = [] then fieldsAux [] cs else cur :: fieldsAux [] cs)
    else fieldsAux (cur ++ [c]) cs

/-- Modelled from the spec: `parseRequestLine`, called by `handleHTTPDebug` and
not defined in the sources. The spec says of the request line: "split into
method, request-target, version on whitespace; all three fields must be
non-empty". -/
def parseRequestLine (line : Str) : Option (Str × Str × Str) :=
  match fieldsAux [] line with
  | [method, requestURI, version] => some (method, requestURI, version)
  | _ => none

/-- Go map assignment `headers[key] = value` on the list of entries. -/
def Headers.set : Headers → Str → Str → Headers
  | [], key, value => [(key, value)]
  | (k, v) :: rest, key, value =>
    if k = key then (k, value) :: rest else (k, v) :: Headers.set rest key value

/-- The line loop of `readHeaders` (see `readHeaders`); `fuel = len(reader)`
rounds are enough. -/
def readHeadersLoop : Nat → Str → Headers → Option (Headers × Str)
  | 0, _, _ => none
  | fuel + 1, reader, headers =>
    match ReadString '\n' reader with
    | none => none
    | some (line, reader) =>
      let line := TrimRight line "\r\n".toList
      if line = [] then some (headers, reader)
      else match IndexByte line ':' with
        | none => readHeadersLoop fuel reader headers
        | some i =>
          readHeadersLoop fuel reader
            (headers.set (ToLower (TrimSpace (line.take i))) (TrimSpace (line.drop (i + 1))))

/-- Modelled from the spec: `readHeaders`, called by `handleHTTPDebug` and not
defined in the sources. The spec says: "read lines until a blank line; each
header line is split on the first colon, key lower-cased and trimmed, value
trimmed; duplicate keys are not merged - last occurrence for a given key wins";
a read failure is an error. A line without a colon is skipped, and the entries
are listed in the order in which their keys first occur. -/
def readHeaders (reader : Str) : Option (Headers × Str) :=
  readHeadersLoop reader.length reader []

/-- The helpers as the spec describes them. -/
def specHelpers : Helpers :=
  { parseRequestLine := parseRequestLine,
    readHeaders := readHeaders }

/-! ## `config.go` and `main.go`: the dispatcher -/

/-- The struct `Config` of `config.go` (`IdleTimeout` in nanoseconds). -/
structure Config where
  Port : Int
  isSocks : Bool
  isDebug : Bool
  isLogOff : Bool
  LogFile : Str
  AllowedIPs : List Str
  IdleTimeout : Int
  BufferSize : Int
  LogChanBufferSize : Int
deriving DecidableEq, Repr

/-- Function `handleConnection` of `main.go`. `handleSocks` and
`handleSocksDebug` are the two SOCKS handlers, which the sources call but do
not define; `remoteAddr` is the client address when `c.RemoteAddr()` is a
`*net.TCPAddr` (`none` otherwise), `c` the byte stream that arrives from the
client. -/
def handleConnection (handleSocks handleSocksDebug : Str → Outcome) (h : Helpers) (env : Env)
    (cfg : Config) (auth : AuthConfig) (remoteAddr : Option NetIP) (networks : List IPNet)
    (c : Str) : Outcome :=
  Outcome.close <|
    match remoteAddr with
    | none => reply [] []
    | some ip =>
      if !isAllowed ip networks then reply [] []
      else if cfg.isSocks then
        (if cfg.isDebug then handleSocksDebug c else handleSocks c)
      else
        (if cfg.isDebug then handleHTTPDebug h env auth c else handleHTTP env c)

/-- The results of Go `url.Parse` on the request-targets of the examples below
(every other input is answered with an error here). -/
def urlParseExamples (rawURL : Str) : Option URL :=
  if rawURL = "http://example.com/".toList then
    some { Scheme := "http".toList, Host := "example.com".toList, Path := "/".toList }
  else if rawURL = "https://example.com:8443/a?b=c".toList then
    some { Scheme := "https".toList, Host := "example.com:8443".toList, Path := "/a".toList,
           RawQuery := "b=c".toList }
  else if rawURL = "/index.html".toList then
    some { Path := "/index.html".toList }
  else if rawURL = "example.com:443".toList then
    some { Scheme := "example.com".toList, Opaque := "443".toList }
  else none

/-- A network in which every dial succeeds and the remote echoes nothing. -/
def silentEnv : Env := { urlParse := urlParseExamples, dial := fun _ => some (fun _ => []) }

/-! ## Notions used to state the properties -/

/-- The stream `client` starts with an RFC 1929 frame: version 1, the length
byte of `user`, `user`, the length byte of `pass`, `pass`. -/
def StartsWithFrame (client user pass : Str) : Prop :=
  ∃ ulen plen rest, client = Char.ofNat 0x01 :: ulen :: (user ++ plen :: (pass ++ rest)) ∧
    ulen.toNat = user.length ∧ plen.toNat = pass.length ∧
    user.length ≤ 255 ∧ pass.length ≤ 255

/-- A line of the client stream: bytes without a newline, then a newline. -/
def IsLine (l : Str) : Prop := ∃ body, l = body ++ ['\n'] ∧ '\n' ∉ body

/-- A header line in the sense of `handleHTTPConnect`: a line that is neither
`"\r\n"` nor `"\n"`. -/
def IsHeaderLine (l : Str) : Prop := IsLine l ∧ l ≠ "\r\n".toList ∧ l ≠ "\n".toList

/-- The string `s` is `t` up to the case of its letters: byte by byte, `s` has
the byte of `t` or the byte 32 above it (for a capital ASCII letter of `t`,
its lower-case form). -/
def EqualsIgnoringCase (s t : Str) : Prop :=
  List.Forall₂ (fun a b => a = b ∨ a.toNat = b.toNat + 32) s t

instance (s t : Str) : Decidable (EqualsIgnoringCase s t) := by
  unfold EqualsIgnoringCase
  infer_instance

/-- The number a big-endian byte sequence stands for; for a 4-byte IPv4 address
`a.b.c.d` this is `a * 2^24 + b * 2^16 + c * 2^8 + d`. -/
def ipValue (ip : List Nat) : Nat := ip.foldl (fun acc b => acc * 256 + b) 0

/-- A sequence of four bytes. -/
def IsIPv4Bytes (ip : List Nat) : Prop := ip.length = 4 ∧ ∀ b ∈ ip, b < 256

/-- The alphabet `encodeStd` of Go `encoding/base64`. -/
def encodeStd : Str :=
  "ABCDEFGHIJKLMNOPQRSTUVWXYZabcdefghijklmnopqrstuvwxyz0123456789+/".toList

/-- Go `base64.StdEncoding.EncodeToString`, with which a client builds the value
of a `Proxy-Authorization: Basic` header: three bytes become four letters of
the alphabet, and a last group of one or two bytes is padded with `=`. -/
def EncodeToString : Str → Str
  | [] => []
  | [b0] =>
    let val := b0.toNat <<< 16
    [encodeStd.getD (val >>> 18 &&& 0x3F) 'A', encodeStd.getD (val >>> 12 &&& 0x3F) 'A', '=', '=']
  | [b0, b1] =>
    let val := b0.toNat <<< 16 ||| b1.toNat <<< 8
    [encodeStd.getD (val >>> 18 &&& 0x3F) 'A', encodeStd.getD (val >>> 12 &&& 0x3F) 'A',
     encodeStd.getD (val >>> 6 &&& 0x3F) 'A', '=']
  | b0 :: b1 :: b2 :: rest =>
    let val := b0.toNat <<< 16 ||| b1.toNat <<< 8 ||| b2.toNat
    encodeStd.getD (val >>> 18 &&& 0x3F) 'A' :: encodeStd.getD (val >>> 12 &&& 0x3F) 'A' ::
      encodeStd.getD (val >>> 6 &&& 0x3F) 'A' :: encodeStd.getD (val &&& 0x3F) 'A' ::
      EncodeToString rest

/-! ## `config.go`: loading the configuration -/

/-- The method `SkipSpace` of the scanner of package `fmt`, as `Sscanf` runs it
(a newline is not white space there): the input without its leading white
space, `none` for the error "unexpected newline"; `fuel` bounds the number of
runes. -/
def skipSpace : Nat → Str → Option Str
  | 0, s => some s
  | fuel + 1, s =>
    match s with
    | [] => some []
    | c :: _ =>
      if c = '\n' then none
      else match leadingSpaceLen s with
        | 0 => some s
        | k => skipSpace fuel (s.drop k)

/-- A token: a non-empty string of printable ASCII bytes other than the space
(the bytes `!` to `~`). -/
def IsToken (s : Str) : Prop := s ≠ [] ∧ ∀ c ∈ s, '!' ≤ c ∧ c ≤ '~'

instance (s : Str) : Decidable (IsToken s) := by
  unfold IsToken
  infer_instance

theorem lor_eq_zero_iff (a b : Nat) : a ||| b = 0 ↔ a = 0 ∧ b = 0 := by
  constructor
  · intro h
    have ha : ∀ i, a.testBit i = false := by
      intro i
      have := congrArg (fun n => n.testBit i) h
      simp [Nat.testBit_or] at this
      exact this.1
    have hb : ∀ i, b.testBit i = false := by
      intro i
      have := congrArg (fun n => n.testBit i) h
      simp [Nat.testBit_or] at this
      exact this.2
    exact ⟨Nat.eq_of_testBit_eq (by simpa using ha), Nat.eq_of_testBit_eq (by simpa using hb)⟩
  · rintro ⟨rfl, rfl⟩; rfl

theorem char_toNat_inj {a b : Char} (h : a.toNat = b.toNat) : a = b := by
  apply Char.ext
  exact UInt32.ext (by simpa [Char.toNat] using h)

theorem toNat_ofNat_byte (n : Nat) (h : n < 256) : (Char.ofNat n).toNat = n := by
  have hv : n.isValidChar := Or.inl (by omega)
  unfold Char.ofNat
  rw [dif_pos hv]
  simp [Char.ofNatAux, Char.toNat, UInt32.toNat]

theorem char_le_iff (c d : Char) : c ≤ d ↔ c.toNat ≤ d.toNat := Iff.rfl

theorem xorAcc_eq_zero_iff (x : Str) : ∀ (v : Nat) (y : Str), x.length = y.length →
    (xorAcc v x y = 0 ↔ v = 0 ∧ x = y) := by
  induction x with
  | nil =>
    intro v y hlen
    cases y with
    | nil => simp [xorAcc]
    | cons b ys => simp at hlen
  | cons a xs ih =>
    intro v y hlen
    cases y with
    | nil => simp at hlen
    | cons b ys =>
      have hl : xs.length = ys.length := by simpa using hlen
      rw [xorAcc, ih _ _ hl, lor_eq_zero_iff, Nat.xor_eq_zero]
      constructor
      · rintro ⟨⟨hv, hab⟩, rfl⟩
        exact ⟨hv, by rw [char_toNat_inj hab]⟩
      · rintro ⟨hv, heq⟩
        injection heq with h1 h2
        exact ⟨⟨hv, by rw [h1]⟩, h2⟩

/-- `subtle.ConstantTimeCompare` returns 1 exactly on equal slices. -/
theorem ConstantTimeCompare_eq_one_iff (x y : Str) : ConstantTimeCompare x y = 1 ↔ x = y := by
  unfold ConstantTimeCompare
  by_cases hlen : x.length = y.length
  · simp only [hlen, ne_eq, not_true_eq_false, if_false]
    rw [show (if xorAcc 0 x y = 0 then 1 else 0) = 1 ↔ xorAcc 0 x y = 0 by
      by_cases h : xorAcc 0 x y = 0 <;> simp [h]]
    rw [xorAcc_eq_zero_iff x 0 y hlen]
    simp
  · simp only [ne_eq, hlen, not_false_eq_true, if_true]
    constructor
    · intro h; simp at h
    · intro h; exact absurd (congrArg List.length h) hlen

theorem IndexByte_eq_none_iff (s : Str) (c : Char) : IndexByte s c = none ↔ c ∉ s := by
  induction s with
  | nil => simp [IndexByte]
  | cons x xs ih =>
    by_cases h : x = c
    · simp [IndexByte, h]
    · have h2 : ¬ c = x := fun e => h e.symm
      simp [IndexByte, h, h2, ih]

theorem IndexByte_eq_some (s : Str) (c : Char) : ∀ i, IndexByte s c = some i →
    s = s.take i ++ c :: s.drop (i + 1) ∧ c ∉ s.take i := by
  induction s with
  | nil => intro i h; simp [IndexByte] at h
  | cons x xs ih =>
    intro i h
    by_cases hx : x = c
    · simp [IndexByte, hx] at h
      subst h; subst hx
      simp
    · simp only [IndexByte, hx, if_false] at h
      cases hj : IndexByte xs c with
      | none => rw [hj] at h; simp at h
      | some j =>
      rw [hj] at h
      simp only [Option.map_some', Option.some.injEq] at h
      subst h
      obtain ⟨h1, h2⟩ := ih j hj
      have hx2 : ¬ c = x := fun e => hx e.symm
      constructor
      · simp only [List.take_succ_cons, List.drop_succ_cons, List.cons_append]
        rw [← h1]
      · simp [hx2, h2]

theorem IndexByte_append_cons (u p : Str) (c : Char) (h : c ∉ u) :
    IndexByte (u ++ c :: p) c = some u.length := by
  induction u with
  | nil => simp [IndexByte]
  | cons x xs ih =>
    have hx : ¬ x = c := fun e => h (by simp [e])
    have hxs : c ∉ xs := fun e => h (by simp [e])
    simp [IndexByte, hx, ih hxs]

theorem HasPrefix_iff (s p : Str) : HasPrefix s p = true ↔ ∃ t, s = p ++ t := by
  unfold HasPrefix
  rw [List.isPrefixOf_iff_prefix]
  constructor
  · rintro ⟨t, rfl⟩; exact ⟨t, rfl⟩
  · rintro ⟨t, rfl⟩; exact ⟨t, rfl⟩

theorem ReadFull_append (a b : Str) : ReadFull a.length (a ++ b) = some (a, b) := by
  simp [ReadFull]

theorem ReadFull_eq_some {n : Nat} {s a b : Str} (h : ReadFull n s = some (a, b)) :
    s = a ++ b ∧ a.length = n := by
  unfold ReadFull at h
  split at h
  · rename_i hle
    simp only [Option.some.injEq, Prod.mk.injEq] at h
    obtain ⟨rfl, rfl⟩ := h
    exact ⟨(List.take_append_drop n s).symm, by simp [hle]⟩
  · cases h

theorem ReadString_line (delim : Char) (body rest : Str) (h : delim ∉ body) :
    ReadString delim (body ++ delim :: rest) = some (body ++ [delim], rest) := by
  induction body with
  | nil => simp [ReadString]
  | cons c cs ih =>
    have hc : ¬ c = delim := fun e => h (by simp [e])
    have hcs : delim ∉ cs := fun e => h (by simp [e])
    simp [ReadString, hc, ih hcs]

theorem ReadString_eq_some {delim : Char} : ∀ {s line rest : Str},
    ReadString delim s = some (line, rest) →
    s = line ++ rest ∧ ∃ body, line = body ++ [delim] ∧ delim ∉ body := by
  intro s
  induction s with
  | nil => intro line rest h; simp [ReadString] at h
  | cons c cs ih =>
    intro line rest h
    by_cases hc : c = delim
    · simp only [ReadString, hc, if_true, Option.some.injEq, Prod.mk.injEq] at h
      obtain ⟨rfl, rfl⟩ := h
      exact ⟨by simp [hc], [], by simp, by simp⟩
    · simp only [ReadString, hc, if_false] at h
      cases hr : ReadString delim cs with
      | none => rw [hr] at h; cases h
      | some r =>
        obtain ⟨l, r2⟩ := r
        rw [hr] at h
        simp only [Option.some.injEq, Prod.mk.injEq] at h
        obtain ⟨rfl, rfl⟩ := h
        obtain ⟨h1, body, h2, h3⟩ := ih hr
        refine ⟨by rw [h1]; simp, c :: body, by rw [h2]; simp, ?_⟩
        intro hmem
        rcases List.mem_cons.1 hmem with e | e
        · exact hc e.symm
        · exact h3 e

theorem ReadString_isLine (l rest : Str) (h : IsLine l) :
    ReadString '\n' (l ++ rest) = some (l, rest) := by
  obtain ⟨body, rfl, hb⟩ := h
  have := ReadString_line '\n' body rest hb
  simpa using this

/-! ## The fuel of the loops is enough -/

/-- The fuel of `drainHeaders` is never the reason for a failure: any fuel of
at least the length of the stream gives the same result. -/
theorem drainHeaders_fuel : ∀ (fuel : Nat) (s : Str), s.length ≤ fuel →
    drainHeaders fuel s = drainHeaders s.length s := by
  intro fuel
  induction fuel using Nat.strong_induction_on with
  | _ fuel ih =>
    intro s hle
    cases s with
    | nil =>
      cases fuel with
      | zero => rfl
      | succ k => simp [drainHeaders, ReadString]
    | cons c cs =>
      cases fuel with
      | zero => simp at hle
      | succ k =>
        simp only [List.length_cons, drainHeaders]
        cases hr : ReadString '\n' (c :: cs) with
        | none => rfl
        | some r =>
          obtain ⟨line, rest⟩ := r
          simp only
          obtain ⟨hs, body, hl, -⟩ := ReadString_eq_some hr
          have hlen : rest.length ≤ cs.length := by
            have := congrArg List.length hs
            rw [hl] at this
            simp at this
            omega
          split
          · rfl
          · have hk : rest.length ≤ k := by
              simp at hle; omega
            rw [ih k (Nat.lt_succ_self k) rest hk, ih cs.length (by simp at hle; omega) rest hlen]

theorem readQuantum_rest_length : ∀ (src : Str) (dbuf d : List Nat) (rest : Str),
    readQuantum dbuf src = some (d, rest) → rest.length ≤ src.length - 1 := by
  intro src
  induction src with
  | nil =>
    intro dbuf d rest h
    simp only [readQuantum] at h
    split at h
    · simp only [Option.some.injEq, Prod.mk.injEq] at h
      rw [← h.2]; simp
    · cases h
  | cons c cs ih =>
    intro dbuf d rest h
    have hrec : ∀ db, readQuantum db cs = some (d, rest) → rest.length ≤ (c :: cs).length - 1 := by
      intro db hq
      have := ih db d rest hq
      simp only [List.length_cons]
      omega
    have hnil : ∀ x : List Nat, some (x, ([] : Str)) = some (d, rest) →
        rest.length ≤ (c :: cs).length - 1 := by
      intro x hx
      simp only [Option.some.injEq, Prod.mk.injEq] at hx
      rw [← hx.2]; simp
    simp only [readQuantum] at h
    repeat' split at h
    all_goals first
      | exact hrec _ h
      | exact hnil _ h
      | (cases h; done)
      | (cases h; simp)

/-- The loop of `Encoding.Decode` never stops for lack of fuel: any fuel of at
least the length of the input gives the same result. -/
theorem decodeLoop_fuel : ∀ (fuel : Nat) (s : Str), s.length ≤ fuel →
    decodeLoop fuel s = decodeLoop s.length s := by
  intro fuel
  induction fuel using Nat.strong_induction_on with
  | _ fuel ih =>
    intro s hle
    cases s with
    | nil =>
      cases fuel with
      | zero => rfl
      | succ k => simp [decodeLoop]
    | cons c cs =>
      cases fuel with
      | zero => simp at hle
      | succ k =>
        simp only [List.length_cons, decodeLoop]
        rw [if_neg (by simp), if_neg (by simp)]
        cases hq : readQuantum [] (c :: cs) with
        | none => rfl
        | some r =>
          obtain ⟨d, rest⟩ := r
          have hlen := readQuantum_rest_length _ _ _ _ hq
          simp only [List.length_cons, Nat.add_sub_cancel] at hlen
          have hk : rest.length ≤ k := by simp at hle; omega
          simp only
          rw [ih k (Nat.lt_succ_self k) rest hk, ih cs.length (by simp at hle; omega) rest hlen]

theorem leadingSpaceLen_nil : leadingSpaceLen [] = 0 := rfl

theorem trimLeftSpace_fuel : ∀ (fuel : Nat) (s : Str), s.length ≤ fuel →
    trimLeftSpace fuel s = trimLeftSpace s.length s := by
  intro fuel
  induction fuel using Nat.strong_induction_on with
  | _ fuel ih =>
    intro s hle
    cases s with
    | nil =>
      cases fuel with
      | zero => rfl
      | succ k => simp [trimLeftSpace, leadingSpaceLen_nil]
    | cons c cs =>
      cases fuel with
      | zero => simp at hle
      | succ k =>
        simp only [List.length_cons, trimLeftSpace]
        cases hl : leadingSpaceLen (c :: cs) with
        | zero => rfl
        | succ j =>
          simp only
          have hlen : ((c :: cs).drop (j + 1)).length ≤ cs.length := by
            simp only [List.length_drop, List.length_cons]; omega
          have hk : ((c :: cs).drop (j + 1)).length ≤ k := by
            simp at hle; omega
          rw [ih k (Nat.lt_succ_self k) _ hk, ih cs.length (by simp at hle; omega) _ hlen]

theorem trailingSpaceLen_nil : trailingSpaceLen [] = 0 := rfl

theorem trimRightSpace_fuel : ∀ (fuel : Nat) (s : Str), s.length ≤ fuel →
    trimRightSpace fuel s = trimRightSpace s.length s := by
  intro fuel
  induction fuel using Nat.strong_induction_on with
  | _ fuel ih =>
    intro s hle
    cases s with
    | nil =>
      cases fuel with
      | zero => rfl
      | succ k => simp [trimRightSpace, trailingSpaceLen_nil]
    | cons c cs =>
      cases fuel with
      | zero => simp at hle
      | succ k =>
        simp only [List.length_cons, trimRightSpace]
        cases hl : trailingSpaceLen (c :: cs) with
        | zero => rfl
        | succ j =>
          simp only
          have hlen : ((c :: cs).take (cs.length + 1 - (j + 1))).length ≤ cs.length := by
            simp only [List.length_take, List.length_cons]; omega
          have hk : ((c :: cs).take (cs.length + 1 - (j + 1))).length ≤ k := by
            simp at hle; omega
          rw [ih k (Nat.lt_succ_self k) _ hk, ih cs.length (by simp at hle; omega) _ hlen]

theorem readHeadersLoop_fuel : ∀ (fuel : Nat) (s : Str) (headers : Headers), s.length ≤ fuel →
    readHeadersLoop fuel s headers = readHeadersLoop s.length s headers := by
  intro fuel
  induction fuel using Nat.strong_induction_on with
  | _ fuel ih =>
    intro s headers hle
    cases s with
    | nil =>
      cases fuel with
      | zero => rfl
      | succ k => simp [readHeadersLoop, ReadString]
    | cons c cs =>
      cases fuel with
      | zero => simp at hle
      | succ k =>
        simp only [List.length_cons, readHeadersLoop]
        cases hr : ReadString '\n' (c :: cs) with
        | none => rfl
        | some r =>
          obtain ⟨line, rest⟩ := r
          simp only
          obtain ⟨hs, body, hl, -⟩ := ReadString_eq_some hr
          have hlen : rest.length ≤ cs.length := by
            have := congrArg List.length hs
            rw [hl] at this
            simp at this
            omega
          have hk : rest.length ≤ k := by simp at hle; omega
          split
          · rfl
          · split
            · rw [ih k (Nat.lt_succ_self k) rest _ hk,
                ih cs.length (by simp at hle; omega) rest _ hlen]
            · rw [ih k (Nat.lt_succ_self k) rest _ hk,
                ih cs.length (by simp at hle; omega) rest _ hlen]

/-! ## Access control (`isAllowed`) -/

theorem isAllowedLoop_iff (ip4 : NetIP) (networks : List IPNet) :
    isAllowedLoop ip4 networks = true ↔ ∃ n ∈ networks, n.Contains ip4 = true := by
  induction networks with
  | nil => simp [isAllowedLoop]
  | cons n rest ih =>
    by_cases h : n.Contains ip4 = true
    · simp [isAllowedLoop, h]
    · simp [isAllowedLoop, h, ih]

theorem mask_testBit (s j : Nat) (hs : s ≤ 8) :
    (256 - 2 ^ s).testBit j = (decide (s ≤ j) && decide (j < 8)) := by
  by_cases hj : j < 8
  · interval_cases s <;> interval_cases j <;> decide
  · have hlt : 256 - 2 ^ s < 2 ^ j := by
      have h1 : 2 ^ 8 ≤ 2 ^ j := Nat.pow_le_pow_right (by decide) (by omega)
      have h256 : (2 : Nat) ^ 8 = 256 := by decide
      have h2 : 0 < 2 ^ s := Nat.pow_pos (by decide)
      omega
    rw [Nat.testBit_lt_two_pow hlt]
    simp [hj]

theorem byte_testBit_high (a j : Nat) (ha : a < 256) (hj : 8 ≤ j) : a.testBit j = false := by
  apply Nat.testBit_lt_two_pow
  have : 2 ^ 8 ≤ 2 ^ j := Nat.pow_le_pow_right (by decide) hj
  have h256 : (2 : Nat) ^ 8 = 256 := by decide
  omega

theorem testBit_div_two_pow (a s j : Nat) : (a / 2 ^ s).testBit j = a.testBit (s + j) := by
  rw [← Nat.shiftRight_eq_div_pow, Nat.testBit_shiftRight]

theorem land_mask_eq_iff (a b s : Nat) (ha : a < 256) (hb : b < 256) (hs : s ≤ 8) :
    a &&& (256 - 2 ^ s) = b &&& (256 - 2 ^ s) ↔ a / 2 ^ s = b / 2 ^ s := by
  constructor
  · intro h
    apply Nat.eq_of_testBit_eq
    intro j
    rw [testBit_div_two_pow, testBit_div_two_pow]
    by_cases hj : s + j < 8
    · have := congrArg (fun n => n.testBit (s + j)) h
      simp only [Nat.testBit_and, mask_testBit s (s + j) hs] at this
      simpa [hj] using this
    · rw [byte_testBit_high a _ ha (by omega), byte_testBit_high b _ hb (by omega)]
  · intro h
    apply Nat.eq_of_testBit_eq
    intro j
    simp only [Nat.testBit_and, mask_testBit s j hs]
    by_cases hj : s ≤ j ∧ j < 8
    · have := congrArg (fun n => n.testBit (j - s)) h
      simp only [testBit_div_two_pow] at this
      rw [show s + (j - s) = j by omega] at this
      simp [hj.1, hj.2, this]
    · have : (decide (s ≤ j) && decide (j < 8)) = false := by
        simp only [Bool.and_eq_false_iff, decide_eq_false_iff_not]
        by_cases h1 : s ≤ j
        · right; omega
        · left; exact h1
      rw [this]; simp

theorem CIDRMask4_eq (ones : Nat) :
    CIDRMask4 ones = [256 - 2 ^ (8 - min 8 ones), 256 - 2 ^ (8 - min 8 (ones - 8)),
      256 - 2 ^ (8 - min 8 (ones - 16)), 256 - 2 ^ (8 - min 8 (ones - 24))] := by
  have key : ∀ i, (if 8 * (i + 1) ≤ ones then 0xff
      else if ones ≤ 8 * i then 0
      else 256 - 2 ^ (8 - (ones - 8 * i))) = 256 - 2 ^ (8 - min 8 (ones - 8 * i)) := by
    intro i
    by_cases h1 : 8 * (i + 1) ≤ ones
    · rw [if_pos h1, show min 8 (ones - 8 * i) = 8 by omega]; rfl
    · rw [if_neg h1]
      by_cases h2 : ones ≤ 8 * i
      · rw [if_pos h2, show min 8 (ones - 8 * i) = 0 by omega]; rfl
      · rw [if_neg h2, show min 8 (ones - 8 * i) = ones - 8 * i by omega]
  have h0 := key 0
  have h1 := key 1
  have h2 := key 2
  have h3 := key 3
  simp only [Nat.mul_zero, Nat.sub_zero, Nat.zero_add, Nat.mul_one] at h0 h1 h2 h3
  simp only [CIDRMask4, List.range, List.range.loop, List.map_cons, List.map_nil]
  simp only [Nat.mul_zero, Nat.sub_zero, Nat.zero_add, Nat.mul_one, h0, h1, h2, h3]

theorem land_land_self (a m : Nat) : (a &&& m) &&& m = a &&& m := by
  rw [Nat.land_assoc, Nat.and_self]

theorem Contains_of_bytes (a0 a1 a2 a3 b0 b1 b2 b3 m0 m1 m2 m3 : Nat) :
    (IPNet.Contains ⟨List.zipWith (· &&& ·) [a0, a1, a2, a3] [m0, m1, m2, m3], [m0, m1, m2, m3]⟩
      [b0, b1, b2, b3] = true) ↔
    (a0 &&& m0 = b0 &&& m0 ∧ a1 &&& m1 = b1 &&& m1 ∧ a2 &&& m2 = b2 &&& m2 ∧
      a3 &&& m3 = b3 &&& m3) := by
  simp [IPNet.Contains, networkNumberAndMask, To4, maskedEq, land_land_self]

theorem mul_add_inj {M h1 r1 h2 r2 : Nat} (hr1 : r1 < M) (hr2 : r2 < M)
    (h : h1 * M + r1 = h2 * M + r2) : h1 = h2 ∧ r1 = r2 := by
  have hM : 0 < M := by omega
  have e1 : (h1 * M + r1) / M = h1 := by
    rw [Nat.add_comm, Nat.add_mul_div_right _ _ hM, Nat.div_eq_of_lt hr1, Nat.zero_add]
  have e2 : (h2 * M + r2) / M = h2 := by
    rw [Nat.add_comm, Nat.add_mul_div_right _ _ hM, Nat.div_eq_of_lt hr2, Nat.zero_add]
  have hh : h1 = h2 := by rw [← e1, ← e2, h]
  subst hh
  exact ⟨rfl, by omega⟩

theorem div_two_pow_split (hi lo hi2 lo2 n t : Nat) (hlo : lo < 2 ^ n) (hlo2 : lo2 < 2 ^ n) :
    (hi * 2 ^ n + lo) / 2 ^ t = (hi2 * 2 ^ n + lo2) / 2 ^ t ↔
      hi / 2 ^ (t - n) = hi2 / 2 ^ (t - n) ∧ lo / 2 ^ (min t n) = lo2 / 2 ^ (min t n) := by
  have hpos : ∀ k : Nat, 0 < 2 ^ k := fun k => Nat.pow_pos (by decide)
  by_cases htn : n ≤ t
  · have hmin : min t n = n := by omega
    have key : ∀ h l : Nat, l < 2 ^ n → (h * 2 ^ n + l) / 2 ^ t = h / 2 ^ (t - n) := by
      intro h l hl
      have : 2 ^ t = 2 ^ n * 2 ^ (t - n) := by
        rw [← Nat.pow_add]; congr 1; omega
      rw [this, ← Nat.div_div_eq_div_mul, Nat.add_comm, Nat.add_mul_div_right _ _ (hpos n),
        Nat.div_eq_of_lt hl, Nat.zero_add]
    rw [key hi lo hlo, key hi2 lo2 hlo2, hmin, Nat.div_eq_of_lt hlo, Nat.div_eq_of_lt hlo2]
    simp
  · have hmin : min t n = t := by omega
    have h0 : t - n = 0 := by omega
    have hpow : 2 ^ n = 2 ^ (n - t) * 2 ^ t := by
      rw [← Nat.pow_add]; congr 1; omega
    have key : ∀ h l : Nat, (h * 2 ^ n + l) / 2 ^ t = h * 2 ^ (n - t) + l / 2 ^ t := by
      intro h l
      rw [hpow, ← Nat.mul_assoc, Nat.add_comm, Nat.add_mul_div_right _ _ (hpos t), Nat.add_comm]
    have hlt : ∀ l : Nat, l < 2 ^ n → l / 2 ^ t < 2 ^ (n - t) := by
      intro l hl
      apply Nat.div_lt_of_lt_mul
      rw [Nat.mul_comm, ← hpow]; exact hl
    rw [key, key, hmin, h0]
    simp only [Nat.pow_zero, Nat.div_one]
    constructor
    · intro h
      exact mul_add_inj (hlt lo hlo) (hlt lo2 hlo2) h
    · rintro ⟨h1, h2⟩
      rw [h1, h2]

theorem prefix_eq_iff_bytes (a0 a1 a2 a3 b0 b1 b2 b3 ones : Nat)
    (ha1 : a1 < 256) (ha2 : a2 < 256) (ha3 : a3 < 256)
    (hb1 : b1 < 256) (hb2 : b2 < 256) (hb3 : b3 < 256) (ho : ones ≤ 32) :
    (a0 / 2 ^ (8 - min 8 ones) = b0 / 2 ^ (8 - min 8 ones) ∧
      a1 / 2 ^ (8 - min 8 (ones - 8)) = b1 / 2 ^ (8 - min 8 (ones - 8)) ∧
      a2 / 2 ^ (8 - min 8 (ones - 16)) = b2 / 2 ^ (8 - min 8 (ones - 16)) ∧
      a3 / 2 ^ (8 - min 8 (ones - 24)) = b3 / 2 ^ (8 - min 8 (ones - 24))) ↔
    ipValue [b0, b1, b2, b3] / 2 ^ (32 - ones) = ipValue [a0, a1, a2, a3] / 2 ^ (32 - ones) := by
  have hv : ∀ x0 x1 x2 x3 : Nat,
      ipValue [x0, x1, x2, x3] = ((x0 * 2 ^ 8 + x1) * 2 ^ 8 + x2) * 2 ^ 8 + x3 := by
    intro x0 x1 x2 x3
    simp [ipValue]
  have h256 : (2 : Nat) ^ 8 = 256 := by decide
  rw [hv, hv]
  rw [div_two_pow_split _ b3 _ a3 8 (32 - ones) (by omega) (by omega)]
  rw [div_two_pow_split _ b2 _ a2 8 (32 - ones - 8) (by omega) (by omega)]
  rw [div_two_pow_split _ b1 _ a1 8 (32 - ones - 8 - 8) (by omega) (by omega)]
  have e0 : 8 - min 8 ones = 32 - ones - 8 - 8 - 8 := by omega
  have e1 : 8 - min 8 (ones - 8) = min (32 - ones - 8 - 8) 8 := by omega
  have e2 : 8 - min 8 (ones - 16) = min (32 - ones - 8) 8 := by omega
  have e3 : 8 - min 8 (ones - 24) = min (32 - ones) 8 := by omega
  rw [e0, e1, e2, e3]
  constructor
  · rintro ⟨h0, h1, h2, h3⟩
    exact ⟨⟨⟨h0.symm, h1.symm⟩, h2.symm⟩, h3.symm⟩
  · rintro ⟨⟨⟨h0, h1⟩, h2⟩, h3⟩
    exact ⟨h0.symm, h1.symm, h2.symm, h3.symm⟩

/-- For a network `a.b.c.d/ones` as `net.ParseCIDR` returns it, `Contains`
holds of a 4-byte address exactly when the address and the network address
have the same leading `ones` bits, that is the same quotient by
`2 ^ (32 - ones)`. -/
theorem Contains_parsedIPv4Net_iff (addr ip4 : List Nat) (ones : Nat)
    (ha : IsIPv4Bytes addr) (hi : IsIPv4Bytes ip4) (ho : ones ≤ 32) :
    (parsedIPv4Net addr ones).Contains ip4 = true ↔
      ipValue ip4 / 2 ^ (32 - ones) = ipValue addr / 2 ^ (32 - ones) := by
  obtain ⟨halen, hab⟩ := ha
  obtain ⟨hilen, hib⟩ := hi
  match addr, halen with
  | [a0, a1, a2, a3], _ =>
    match ip4, hilen with
    | [b0, b1, b2, b3], _ =>
      have ha0 := hab a0 (by simp)
      have ha1 := hab a1 (by simp)
      have ha2 := hab a2 (by simp)
      have ha3 := hab a3 (by simp)
      have hb0 := hib b0 (by simp)
      have hb1 := hib b1 (by simp)
      have hb2 := hib b2 (by simp)
      have hb3 := hib b3 (by simp)
      unfold parsedIPv4Net
      rw [CIDRMask4_eq, Contains_of_bytes,
        land_mask_eq_iff a0 b0 _ ha0 hb0 (by omega), land_mask_eq_iff a1 b1 _ ha1 hb1 (by omega),
        land_mask_eq_iff a2 b2 _ ha2 hb2 (by omega), land_mask_eq_iff a3 b3 _ ha3 hb3 (by omega)]
      exact prefix_eq_iff_bytes a0 a1 a2 a3 b0 b1 b2 b3 ones ha1 ha2 ha3 hb1 hb2 hb3 ho

theorem To4_isIPv4Bytes (ip ip4 : NetIP) (hb : ∀ b ∈ ip, b < 256) (h : To4 ip = some ip4) :
    IsIPv4Bytes ip4 := by
  unfold To4 at h
  split at h
  · rename_i h4
    simp only [Option.some.injEq] at h
    subst h
    exact ⟨h4, hb⟩
  · split at h
    · rename_i h16
      simp only [Option.some.injEq] at h
      subst h
      refine ⟨by simp [h16.1], ?_⟩
      intro b hbm
      exact hb b (List.mem_of_mem_drop hbm)
    · cases h

/-- C3: `isAllowed ip networks` holds exactly when `ip` is an IPv4 address
(`To4` gives its 4-byte form) that some network of the list contains; it is
false for every address that is not IPv4 (every IPv6 address), and false for
every address when the list is empty. When the list is the result of parsing
IPv4 CIDRs `a.b.c.d/ones`, "contains" means that the address and the network
address agree on their leading `ones` bits. -/
theorem isAllowed_iff (ip : NetIP) (networks : List IPNet) :
    (isAllowed ip networks = true ↔
      ∃ ip4, To4 ip = some ip4 ∧ ∃ n ∈ networks, n.Contains ip4 = true) ∧
    (To4 ip = none → isAllowed ip networks = false) ∧
    isAllowed ip [] = false ∧
    (∀ cidrs : List (List Nat × Nat),
      networks = cidrs.map (fun c => parsedIPv4Net c.1 c.2) →
      (∀ c ∈ cidrs, IsIPv4Bytes c.1 ∧ c.2 ≤ 32) → (∀ b ∈ ip, b < 256) →
      (isAllowed ip networks = true ↔
        ∃ ip4, To4 ip = some ip4 ∧
          ∃ c ∈ cidrs, ipValue ip4 / 2 ^ (32 - c.2) = ipValue c.1 / 2 ^ (32 - c.2))) := by
  have hgen : isAllowed ip networks = true ↔
      ∃ ip4, To4 ip = some ip4 ∧ ∃ n ∈ networks, n.Contains ip4 = true := by
    unfold isAllowed
    cases h : To4 ip with
    | none => simp
    | some ip4 => simp [isAllowedLoop_iff]
  refine ⟨hgen, ?_, ?_, ?_⟩
  · intro h
    simp [isAllowed, h]
  · unfold isAllowed
    cases To4 ip <;> simp [isAllowedLoop]
  · intro cidrs hn hc hb
    rw [hgen]
    constructor
    · rintro ⟨ip4, h4, n, hmem, hcont⟩
      rw [hn] at hmem
      obtain ⟨c, hcm, rfl⟩ := List.mem_map.1 hmem
      refine ⟨ip4, h4, c, hcm, ?_⟩
      exact (Contains_parsedIPv4Net_iff c.1 ip4 c.2 (hc c hcm).1
        (To4_isIPv4Bytes ip ip4 hb h4) (hc c hcm).2).1 hcont
    · rintro ⟨ip4, h4, c, hcm, hval⟩
      refine ⟨ip4, h4, parsedIPv4Net c.1 c.2, ?_, ?_⟩
      · rw [hn]; exact List.mem_map.2 ⟨c, hcm, rfl⟩
      · exact (Contains_parsedIPv4Net_iff c.1 ip4 c.2 (hc c hcm).1
          (To4_isIPv4Bytes ip ip4 hb h4) (hc c hcm).2).2 hval

/-- C3, at concrete addresses: with `allowed_ip=10.0.0.0/8` only, the client
`192.168.1.5` is refused and sent nothing, `10.1.2.3` is let in (it has the
leading 8 bits of `10.0.0.0`), and the IPv6 address `2001:db8::1` is refused. -/
theorem isAllowed_iff_witness :
    isAllowed [192, 168, 1, 5] [parsedIPv4Net [10, 0, 0, 0] 8] = false ∧
    isAllowed [10, 1, 2, 3] [parsedIPv4Net [10, 0, 0, 0] 8] = true ∧
    To4 [0x20, 0x01, 0x0d, 0xb8, 0, 0, 0, 0, 0, 0, 0, 0, 0, 0, 0, 1] = none ∧
    isAllowed [0x20, 0x01, 0x0d, 0xb8, 0, 0, 0, 0, 0, 0, 0, 0, 0, 0, 0, 1]
      [parsedIPv4Net [10, 0, 0, 0] 8] = false ∧
    (∀ socks socksDebug : Str → Outcome,
      handleConnection socks socksDebug specHelpers silentEnv
        ⟨3128, false, false, false, [], ["10.0.0.0/8".toList], 30000000000, 32768, 1000⟩
        ⟨false, [], []⟩ (some [192, 168, 1, 5]) [parsedIPv4Net [10, 0, 0, 0] 8]
        "GET http://example.com/ HTTP/1.1\r\n\r\n".toList = ⟨[], [], [], true⟩) := by
  refine ⟨by decide, ?_, by decide, ?_, fun _ _ => rfl⟩
  · exact ((isAllowed_iff [10, 1, 2, 3] [parsedIPv4Net [10, 0, 0, 0] 8]).2.2.2
      [([10, 0, 0, 0], 8)] rfl
      (by
        intro c hc
        simp only [List.mem_singleton] at hc
        subst hc
        exact ⟨⟨rfl, by decide⟩, by decide⟩)
      (by decide)).2
      ⟨[10, 1, 2, 3], by decide, ([10, 0, 0, 0], 8), by simp, by decide⟩
  · exact (isAllowed_iff _ _).2.1 (by decide)

/-! ## HTTP Basic authentication (`validateAuth`) -/

/-- The credentials test of `validateAuth` on the decoded string: it succeeds
exactly when the string is `username:password`, cut at its first colon. -/
theorem credsMatch_iff (cfg : AuthConfig) (creds : Str) :
    (match IndexByte creds ':' with
      | none => false
      | some colonIndex =>
        (ConstantTimeCompare (creds.take colonIndex) cfg.AuthUsername = 1 &&
          ConstantTimeCompare (creds.drop (colonIndex + 1)) cfg.AuthPassword = 1)) = true ↔
    ∃ user pass, creds = user ++ ':' :: pass ∧ ':' ∉ user ∧
      user = cfg.AuthUsername ∧ pass = cfg.AuthPassword := by
  cases hi : IndexByte creds ':' with
  | none =>
    have hnot := (IndexByte_eq_none_iff creds ':').1 hi
    simp only [Bool.false_eq_true, false_iff]
    rintro ⟨user, pass, rfl, -, -, -⟩
    exact hnot (by simp)
  | some i =>
    obtain ⟨hsplit, hfree⟩ := IndexByte_eq_some creds ':' i hi
    simp only [Bool.and_eq_true, decide_eq_true_eq, ConstantTimeCompare_eq_one_iff]
    constructor
    · rintro ⟨hu, hp⟩
      exact ⟨creds.take i, creds.drop (i + 1), hsplit, hfree, hu, hp⟩
    · rintro ⟨user, pass, hc, hfree2, hu, hp⟩
      have hi2 := IndexByte_append_cons user pass ':' hfree2
      rw [← hc, hi] at hi2
      have hi3 : i = user.length := by simpa using hi2
      subst hi3
      constructor
      · rw [← hu, hc]; simp
      · rw [← hp, hc]; simp

theorem validateAuth_of_not_HasPrefix (cfg : AuthConfig) (h : Str)
    (hp : HasPrefix h "Basic ".toList = false) (hreq : cfg.AuthRequired = true) :
    validateAuth cfg h = false := by
  unfold validateAuth
  simp only [hreq, Bool.not_true, Bool.false_eq_true, if_false]
  split
  · rfl
  · rw [hp]; rfl

/-- C2: when authentication is not required `validateAuth` accepts every
header. When it is required, `validateAuth h` is true exactly when `h` is
`"Basic "` followed by a string that `base64.StdEncoding` decodes to
`user:pass`, where `user` (the part before the first colon) is the configured
username and `pass` (everything after the first colon, further colons
included) is the configured password; a header without the `"Basic "` prefix,
with an undecodable remainder, or whose decoding has no colon is rejected. -/
theorem validateAuth_spec (cfg : AuthConfig) (h : Str) :
    (cfg.AuthRequired = false → validateAuth cfg h = true) ∧
    (cfg.AuthRequired = true →
      (validateAuth cfg h = true ↔
        ∃ enc creds, h = "Basic ".toList ++ enc ∧ DecodeString enc = some creds ∧
          ∃ user pass, creds = user ++ ':' :: pass ∧ ':' ∉ user ∧
            user = cfg.AuthUsername ∧ pass = cfg.AuthPassword) ∧
      (HasPrefix h "Basic ".toList = false → validateAuth cfg h = false) ∧
      (DecodeString (h.drop 6) = none → validateAuth cfg h = false) ∧
      (∀ creds, DecodeString (h.drop 6) = some creds → ':' ∉ creds →
        validateAuth cfg h = false)) := by
  constructor
  · intro hreq
    simp [validateAuth, hreq]
  · intro hreq
    have hempty : HasPrefix ([] : Str) "Basic ".toList = false := by decide
    refine ⟨?_, ?_, ?_, ?_⟩
    · by_cases hp : HasPrefix h "Basic ".toList = true
      · obtain ⟨enc, rfl⟩ := (HasPrefix_iff _ _).1 hp
        have hne : ("Basic ".toList ++ enc) ≠ [] := by simp
        have hdrop : ("Basic ".toList ++ enc).drop 6 = enc := by simp
        cases hd : DecodeString enc with
        | none =>
          simp only [validateAuth, hreq, hp, hne, hdrop, hd]
          simp only [Bool.not_true, Bool.false_eq_true, if_false, false_iff]
          rintro ⟨enc2, creds, he, hd2, -⟩
          have : enc2 = enc := by
            have := List.append_cancel_left he
            exact this.symm
          rw [this, hd] at hd2
          cases hd2
        | some creds =>
          simp only [validateAuth, hreq, hp, hne, hdrop, hd]
          simp only [Bool.not_true, Bool.false_eq_true, if_false]
          rw [credsMatch_iff]
          constructor
          · rintro hm
            exact ⟨enc, creds, rfl, hd, hm⟩
          · rintro ⟨enc2, creds2, he, hd2, hm⟩
            have : enc2 = enc := (List.append_cancel_left he).symm
            rw [this, hd] at hd2
            cases hd2
            exact hm
      · have hp2 : HasPrefix h "Basic ".toList = false := by simpa using hp
        rw [validateAuth_of_not_HasPrefix cfg h hp2 hreq]
        simp only [Bool.false_eq_true, false_iff]
        rintro ⟨enc, creds, rfl, -⟩
        exact hp ((HasPrefix_iff _ _).2 ⟨enc, rfl⟩)
    · intro hp
      exact validateAuth_of_not_HasPrefix cfg h hp hreq
    · intro hd
      by_cases he : h = []
      · simp [validateAuth, hreq, he]
      · by_cases hp : HasPrefix h "Basic ".toList = true
        · simp [validateAuth, hreq, hp, he, hd]
        · have hp2 : HasPrefix h "Basic ".toList = false := by simpa using hp
          exact validateAuth_of_not_HasPrefix cfg h hp2 hreq
    · intro creds hd hc
      by_cases he : h = []
      · simp [validateAuth, hreq, he]
      · by_cases hp : HasPrefix h "Basic ".toList = true
        · have hi := (IndexByte_eq_none_iff creds ':').2 hc
          simp [validateAuth, hreq, hp, he, hd, hi]
        · have hp2 : HasPrefix h "Basic ".toList = false := by simpa using hp
          exact validateAuth_of_not_HasPrefix cfg h hp2 hreq

/-- C2, at a concrete header: with the credentials `user` / `pa:ss` the header
`Basic dXNlcjpwYTpzcw==` (the encoding of `user:pa:ss`) is accepted, so is any
header when authentication is off, and `Basic dXNlcjpwYXNz` (`user:pass`), the
lower-case `basic ...`, an undecodable remainder and the colon-free
`Basic dXNlcg==` (`user`) are rejected. -/
theorem validateAuth_spec_witness :
    validateAuth ⟨true, "user".toList, "pa:ss".toList⟩ "Basic dXNlcjpwYTpzcw==".toList = true ∧
    validateAuth ⟨false, "user".toList, "pa:ss".toList⟩ "anything".toList = true ∧
    validateAuth ⟨true, "user".toList, "pa:ss".toList⟩ "Basic dXNlcjpwYXNz".toList = false ∧
    validateAuth ⟨true, "user".toList, "pa:ss".toList⟩ "basic dXNlcjpwYTpzcw==".toList = false ∧
    validateAuth ⟨true, "user".toList, "pa:ss".toList⟩ "Basic dXNlcjpwYTpzcw=".toList = false ∧
    validateAuth ⟨true, "user".toList, "pa:ss".toList⟩ "Basic dXNlcg==".toList = false := by
  refine ⟨?_, ?_, by decide, ?_, ?_, ?_⟩
  · exact ((validateAuth_spec ⟨true, "user".toList, "pa:ss".toList⟩ _).2 rfl).1.2
      ⟨"dXNlcjpwYTpzcw==".toList, "user:pa:ss".toList, by decide, by decide,
        "user".toList, "pa:ss".toList, by decide, by decide, rfl, rfl⟩
  · exact (validateAuth_spec ⟨false, "user".toList, "pa:ss".toList⟩ _).1 rfl
  · exact ((validateAuth_spec ⟨true, "user".toList, "pa:ss".toList⟩ _).2 rfl).2.1 (by decide)
  · exact ((validateAuth_spec ⟨true, "user".toList, "pa:ss".toList⟩ _).2 rfl).2.2.1 (by decide)
  · exact ((validateAuth_spec ⟨true, "user".toList, "pa:ss".toList⟩ _).2 rfl).2.2.2
      "user".toList (by decide) (by decide)

/-! ## Round trip through the base64 encoder -/

theorem decodeMap_encodeStd : ∀ v : Fin 64, decodeMap (encodeStd.getD v.val 'A') = some v.val := by
  decide

theorem decodeMap_enc (v : Nat) (h : v < 64) : decodeMap (encodeStd.getD v 'A') = some v :=
  decodeMap_encodeStd ⟨v, h⟩

theorem decodeMap_pad : decodeMap '=' = none := by decide

theorem readQuantum_four (c0 c1 c2 c3 : Char) (v0 v1 v2 v3 : Nat) (rest : Str)
    (h0 : decodeMap c0 = some v0) (h1 : decodeMap c1 = some v1)
    (h2 : decodeMap c2 = some v2) (h3 : decodeMap c3 = some v3) :
    readQuantum [] (c0 :: c1 :: c2 :: c3 :: rest) = some ([v0, v1, v2, v3], rest) := by
  simp [readQuantum, h0, h1, h2, h3]

theorem readQuantum_three (c0 c1 c2 : Char) (v0 v1 v2 : Nat)
    (h0 : decodeMap c0 = some v0) (h1 : decodeMap c1 = some v1)
    (h2 : decodeMap c2 = some v2) :
    readQuantum [] [c0, c1, c2, '='] = some ([v0, v1, v2], []) := by
  simp [readQuantum, h0, h1, h2, decodeMap_pad, skipNewlines]

theorem readQuantum_two (c0 c1 : Char) (v0 v1 : Nat)
    (h0 : decodeMap c0 = some v0) (h1 : decodeMap c1 = some v1) :
    readQuantum [] [c0, c1, '=', '='] = some ([v0, v1], []) := by
  simp [readQuantum, h0, h1, decodeMap_pad, skipNewlines]

theorem shiftLeft_lor (a b k : Nat) (hb : b < 2 ^ k) : a <<< k ||| b = a * 2 ^ k + b := by
  rw [Nat.shiftLeft_eq, Nat.mul_comm, Nat.mul_add_lt_is_or hb]

theorem and_63 (x : Nat) : x &&& 0x3F = x % 64 := by
  have := Nat.and_pow_two_sub_one_eq_mod x 6
  simpa using this

theorem lor_shift_bytes (n0 n1 n2 : Nat) (h1 : n1 < 256) (h2 : n2 < 256) :
    n0 <<< 16 ||| n1 <<< 8 ||| n2 = n0 * 65536 + n1 * 256 + n2 := by
  have e1 : n0 <<< 16 ||| n1 <<< 8 = n0 * 65536 + n1 * 256 := by
    rw [shiftLeft_lor n0 (n1 <<< 8) 16 (by rw [Nat.shiftLeft_eq]; omega), Nat.shiftLeft_eq]
    norm_num
  have e2 : n0 * 65536 + n1 * 256 = (n0 * 256 + n1) <<< 8 := by
    rw [Nat.shiftLeft_eq]; omega
  rw [e1, e2, shiftLeft_lor _ n2 8 (by omega)]
  omega

theorem lor_shift_sextets (v0 v1 v2 v3 : Nat) (h1 : v1 < 64) (h2 : v2 < 64) (h3 : v3 < 64) :
    v0 <<< 18 ||| v1 <<< 12 ||| v2 <<< 6 ||| v3 = v0 * 262144 + v1 * 4096 + v2 * 64 + v3 := by
  have e1 : v0 <<< 18 ||| v1 <<< 12 = v0 * 262144 + v1 * 4096 := by
    rw [shiftLeft_lor v0 (v1 <<< 12) 18 (by rw [Nat.shiftLeft_eq]; omega), Nat.shiftLeft_eq]
    norm_num
  have e2 : v0 * 262144 + v1 * 4096 = (v0 * 64 + v1) <<< 12 := by
    rw [Nat.shiftLeft_eq]; omega
  have e3 : (v0 * 64 + v1) <<< 12 ||| v2 <<< 6 = (v0 * 64 + v1) * 4096 + v2 * 64 := by
    rw [shiftLeft_lor _ (v2 <<< 6) 12 (by rw [Nat.shiftLeft_eq]; omega), Nat.shiftLeft_eq]
    norm_num
  have e4 : (v0 * 64 + v1) * 4096 + v2 * 64 = ((v0 * 64 + v1) * 64 + v2) <<< 6 := by
    rw [Nat.shiftLeft_eq]; omega
  rw [e1, e2, e3, e4, shiftLeft_lor _ v3 6 (by omega)]
  omega

theorem sextet (val k : Nat) : val >>> k &&& 0x3F = val / 2 ^ k % 64 := by
  rw [and_63, Nat.shiftRight_eq_div_pow]

theorem quantumBytes_three_bytes (n0 n1 n2 : Nat) (h0 : n0 < 256) (h1 : n1 < 256) (h2 : n2 < 256) :
    quantumBytes [(n0 <<< 16 ||| n1 <<< 8 ||| n2) >>> 18 &&& 0x3F,
      (n0 <<< 16 ||| n1 <<< 8 ||| n2) >>> 12 &&& 0x3F,
      (n0 <<< 16 ||| n1 <<< 8 ||| n2) >>> 6 &&& 0x3F,
      (n0 <<< 16 ||| n1 <<< 8 ||| n2) &&& 0x3F] =
    [Char.ofNat n0, Char.ofNat n1, Char.ofNat n2] := by
  rw [lor_shift_bytes n0 n1 n2 h1 h2, sextet, sextet, sextet, and_63]
  unfold quantumBytes
  simp only [List.getD_cons_zero, List.getD_cons_succ, List.length_cons, List.length_nil]
  rw [lor_shift_sextets _ _ _ _ (Nat.mod_lt _ (by decide)) (Nat.mod_lt _ (by decide))
    (Nat.mod_lt _ (by decide))]
  simp only [Nat.shiftRight_eq_div_pow]
  have a0 : ((n0 * 65536 + n1 * 256 + n2) / 2 ^ 18 % 64 * 262144 +
      (n0 * 65536 + n1 * 256 + n2) / 2 ^ 12 % 64 * 4096 +
      (n0 * 65536 + n1 * 256 + n2) / 2 ^ 6 % 64 * 64 +
      (n0 * 65536 + n1 * 256 + n2) % 64) = n0 * 65536 + n1 * 256 + n2 := by
    norm_num
    omega
  rw [a0]
  have b0 : (n0 * 65536 + n1 * 256 + n2) / 2 ^ 16 % 256 = n0 := by norm_num; omega
  have b1 : (n0 * 65536 + n1 * 256 + n2) / 2 ^ 8 % 256 = n1 := by norm_num; omega
  have b2 : (n0 * 65536 + n1 * 256 + n2) % 256 = n2 := by omega
  rw [b0, b1, b2]
  rfl

theorem quantumBytes_two_bytes (n0 n1 : Nat) (h0 : n0 < 256) (h1 : n1 < 256) :
    quantumBytes [(n0 <<< 16 ||| n1 <<< 8) >>> 18 &&& 0x3F,
      (n0 <<< 16 ||| n1 <<< 8) >>> 12 &&& 0x3F,
      (n0 <<< 16 ||| n1 <<< 8) >>> 6 &&& 0x3F] =
    [Char.ofNat n0, Char.ofNat n1] := by
  have e : n0 <<< 16 ||| n1 <<< 8 = n0 * 65536 + n1 * 256 := by
    have := lor_shift_bytes n0 n1 0 h1 (by decide)
    simpa using this
  rw [e, sextet, sextet, sextet]
  unfold quantumBytes
  simp only [List.getD_cons_zero, List.getD_cons_succ, List.length_cons, List.length_nil]
  have h3 : ([] : List Nat).getD 0 0 = 0 := rfl
  rw [h3, lor_shift_sextets _ _ _ 0 (Nat.mod_lt _ (by decide)) (Nat.mod_lt _ (by decide))
    (by decide)]
  simp only [Nat.shiftRight_eq_div_pow]
  have b0 : ((n0 * 65536 + n1 * 256) / 2 ^ 18 % 64 * 262144 +
      (n0 * 65536 + n1 * 256) / 2 ^ 12 % 64 * 4096 +
      (n0 * 65536 + n1 * 256) / 2 ^ 6 % 64 * 64 + 0) / 2 ^ 16 % 256 = n0 := by
    norm_num; omega
  have b1 : ((n0 * 65536 + n1 * 256) / 2 ^ 18 % 64 * 262144 +
      (n0 * 65536 + n1 * 256) / 2 ^ 12 % 64 * 4096 +
      (n0 * 65536 + n1 * 256) / 2 ^ 6 % 64 * 64 + 0) / 2 ^ 8 % 256 = n1 := by
    norm_num; omega
  rw [b0, b1]
  rfl

theorem quantumBytes_one_byte (n0 : Nat) (h0 : n0 < 256) :
    quantumBytes [(n0 <<< 16) >>> 18 &&& 0x3F, (n0 <<< 16) >>> 12 &&& 0x3F] =
    [Char.ofNat n0] := by
  have e : n0 <<< 16 = n0 * 65536 := by rw [Nat.shiftLeft_eq]
  rw [e, sextet, sextet]
  unfold quantumBytes
  simp only [List.getD_cons_zero, List.getD_cons_succ, List.length_cons, List.length_nil]
  have h3 : ([] : List Nat).getD 0 0 = 0 := rfl
  have h4 : ([] : List Nat).getD 1 0 = 0 := rfl
  rw [h3, h4, lor_shift_sextets _ _ 0 0 (Nat.mod_lt _ (by decide)) (by decide) (by decide)]
  simp only [Nat.shiftRight_eq_div_pow]
  have b0 : ((n0 * 65536) / 2 ^ 18 % 64 * 262144 + (n0 * 65536) / 2 ^ 12 % 64 * 4096 +
      0 * 64 + 0) / 2 ^ 16 % 256 = n0 := by
    norm_num; omega
  rw [b0]
  rfl

theorem sextet_lt (val k : Nat) : val >>> k &&& 0x3F < 64 := by
  rw [sextet]; exact Nat.mod_lt _ (by decide)

theorem and_63_lt (val : Nat) : val &&& 0x3F < 64 := by
  rw [and_63]; exact Nat.mod_lt _ (by decide)

/-- Decoding inverts encoding: `DecodeString (EncodeToString bs)` is `bs` for
every byte string `bs`. -/
theorem decodeLoop_EncodeToString : ∀ (bs : Str), (∀ b ∈ bs, b.toNat < 256) →
    ∀ fuel, (EncodeToString bs).length ≤ fuel →
      decodeLoop fuel (EncodeToString bs) = some bs
  | [], _, fuel, _ => by
    cases fuel <;> simp [EncodeToString, decodeLoop]
  | [b0], hb, fuel, hf => by
    have h0 := hb b0 (by simp)
    cases fuel with
    | zero => simp [EncodeToString] at hf
    | succ k =>
      simp only [EncodeToString, decodeLoop]
      rw [if_neg (by simp),
        readQuantum_two _ _ _ _ (decodeMap_enc _ (sextet_lt _ _)) (decodeMap_enc _ (sextet_lt _ _))]
      simp only
      have hk : decodeLoop k [] = some [] := by cases k <;> simp [decodeLoop]
      rw [hk, quantumBytes_one_byte _ h0]
      simp
  | [b0, b1], hb, fuel, hf => by
    have h0 := hb b0 (by simp)
    have h1 := hb b1 (by simp)
    cases fuel with
    | zero => simp [EncodeToString] at hf
    | succ k =>
      simp only [EncodeToString, decodeLoop]
      rw [if_neg (by simp),
        readQuantum_three _ _ _ _ _ _ (decodeMap_enc _ (sextet_lt _ _))
          (decodeMap_enc _ (sextet_lt _ _)) (decodeMap_enc _ (sextet_lt _ _))]
      simp only
      have hk : decodeLoop k [] = some [] := by cases k <;> simp [decodeLoop]
      rw [hk, quantumBytes_two_bytes _ _ h0 h1]
      simp
  | b0 :: b1 :: b2 :: rest, hb, fuel, hf => by
    have h0 := hb b0 (by simp)
    have h1 := hb b1 (by simp)
    have h2 := hb b2 (by simp)
    cases fuel with
    | zero => simp [EncodeToString] at hf
    | succ k =>
      have ih := decodeLoop_EncodeToString rest (fun b hm => hb b (by simp [hm])) k
        (by simp [EncodeToString] at hf; omega)
      simp only [EncodeToString, decodeLoop]
      rw [if_neg (by simp),
        readQuantum_four _ _ _ _ _ _ _ _ _ (decodeMap_enc _ (sextet_lt _ _))
          (decodeMap_enc _ (sextet_lt _ _)) (decodeMap_enc _ (sextet_lt _ _))
          (decodeMap_enc _ (and_63_lt _))]
      simp only
      rw [ih, quantumBytes_three_bytes _ _ _ h0 h1 h2]
      simp

theorem DecodeString_EncodeToString (bs : Str) (hb : ∀ b ∈ bs, b.toNat < 256) :
    DecodeString (EncodeToString bs) = some bs :=
  decodeLoop_EncodeToString bs hb _ (Nat.le_refl _)

/-- Every configured pair of credentials can be presented: when the username
has no colon, the header `"Basic "` followed by the base64 encoding of
`username:password` is accepted by `validateAuth`. -/
theorem validateAuth_accepts_encoded (cfg : AuthConfig)
    (hu : ':' ∉ cfg.AuthUsername)
    (hbu : ∀ b ∈ cfg.AuthUsername, b.toNat < 256)
    (hbp : ∀ b ∈ cfg.AuthPassword, b.toNat < 256) :
    validateAuth cfg
      ("Basic ".toList ++ EncodeToString (cfg.AuthUsername ++ ':' :: cfg.AuthPassword)) = true := by
  by_cases hreq : cfg.AuthRequired = true
  · have hdec : DecodeString (EncodeToString (cfg.AuthUsername ++ ':' :: cfg.AuthPassword)) =
        some (cfg.AuthUsername ++ ':' :: cfg.AuthPassword) := by
      apply DecodeString_EncodeToString
      intro b hm
      rcases List.mem_append.1 hm with h | h
      · exact hbu b h
      · rcases List.mem_cons.1 h with h | h
        · rw [h]; decide
        · exact hbp b h
    have hp : HasPrefix ("Basic ".toList ++
        EncodeToString (cfg.AuthUsername ++ ':' :: cfg.AuthPassword)) "Basic ".toList = true :=
      (HasPrefix_iff _ _).2 ⟨_, rfl⟩
    have hne : ("Basic ".toList ++
        EncodeToString (cfg.AuthUsername ++ ':' :: cfg.AuthPassword)) ≠ [] := by simp
    have hdrop : ("Basic ".toList ++
        EncodeToString (cfg.AuthUsername ++ ':' :: cfg.AuthPassword)).drop 6 =
        EncodeToString (cfg.AuthUsername ++ ':' :: cfg.AuthPassword) := by simp
    simp only [validateAuth, hreq, hp, hne, hdrop, hdec]
    simp only [Bool.not_true, Bool.false_eq_true, if_false]
    exact (credsMatch_iff cfg _).2 ⟨_, _, rfl, hu, rfl, rfl⟩
  · have : cfg.AuthRequired = false := by simpa using hreq
    simp [validateAuth, this]

/-! ## SOCKS5 username/password sub-negotiation (`authenticateSocks`) -/

theorem authenticateSocks_of_frame (cfg : AuthConfig) (client user pass : Str)
    (hf : StartsWithFrame client user pass) :
    authenticateSocks cfg client =
      if user = cfg.AuthUsername ∧ pass = cfg.AuthPassword then
        ⟨true, [Char.ofNat 0x01, Char.ofNat 0x00]⟩
      else ⟨false, [Char.ofNat 0x01, Char.ofNat 0x01]⟩ := by
  obtain ⟨ulen, plen, rest, rfl, hu, hp, hul, hpl⟩ := hf
  have h1 : ReadFull 2 (Char.ofNat 0x01 :: ulen :: (user ++ plen :: (pass ++ rest))) =
      some ([Char.ofNat 0x01, ulen], user ++ plen :: (pass ++ rest)) := by
    simp [ReadFull]
  have h2 : ReadFull ulen.toNat (user ++ plen :: (pass ++ rest)) =
      some (user, plen :: (pass ++ rest)) := by
    rw [hu]; exact ReadFull_append _ _
  have h3 : ReadFull 1 (plen :: (pass ++ rest)) = some ([plen], pass ++ rest) := by
    simp [ReadFull]
  have h4 : ReadFull plen.toNat (pass ++ rest) = some (pass, rest) := by
    rw [hp]; exact ReadFull_append _ _
  have hv : (Char.ofNat 0x01).toNat = 1 := by decide
  have hul2 : ¬ ulen.toNat > 255 := by omega
  have hpl2 : ¬ plen.toNat > 255 := by omega
  unfold authenticateSocks
  simp only [h1, h2, h3, h4, List.getD_cons_zero, List.getD_cons_succ, hv, ne_eq,
    not_true_eq_false, hul2, hpl2, or_self, if_false, ConstantTimeCompare_eq_one_iff]

theorem authenticateSocks_written_ne_nil (cfg : AuthConfig) (client : Str)
    (h : (authenticateSocks cfg client).written ≠ []) :
    ∃ user pass, StartsWithFrame client user pass := by
  unfold authenticateSocks at h
  cases h1 : ReadFull 2 client with
  | none => simp [h1] at h
  | some r1 =>
    obtain ⟨buf, c1⟩ := r1
    obtain ⟨hc, hlen⟩ := ReadFull_eq_some h1
    match buf, hlen with
    | [v, ulen], _ =>
      simp only [h1, List.getD_cons_zero, List.getD_cons_succ] at h
      by_cases hv : v.toNat ≠ 1 ∨ ulen.toNat > 255
      · simp [hv] at h
      · simp only [hv, if_false] at h
        cases h2 : ReadFull ulen.toNat c1 with
        | none => simp [h2] at h
        | some r2 =>
          obtain ⟨user, c2⟩ := r2
          obtain ⟨hc2, hlen2⟩ := ReadFull_eq_some h2
          simp only [h2] at h
          cases h3 : ReadFull 1 c2 with
          | none => simp [h3] at h
          | some r3 =>
            obtain ⟨buf3, c3⟩ := r3
            obtain ⟨hc3, hlen3⟩ := ReadFull_eq_some h3
            match buf3, hlen3 with
            | [plen], _ =>
              simp only [h3, List.getD_cons_zero] at h
              by_cases hpl : plen.toNat > 255
              · simp [hpl] at h
              · simp only [hpl, if_false] at h
                cases h4 : ReadFull plen.toNat c3 with
                | none => simp [h4] at h
                | some r4 =>
                  obtain ⟨pass, c4⟩ := r4
                  obtain ⟨hc4, hlen4⟩ := ReadFull_eq_some h4
                  have hv1 : v = Char.ofNat 0x01 := by
                    apply char_toNat_inj
                    have : v.toNat = 1 := by omega
                    rw [this]; decide
                  refine ⟨user, pass, ulen, plen, c4, ?_, hlen2.symm, hlen4.symm, ?_, ?_⟩
                  · rw [hc, hc2, hc3, hc4, hv1]; simp
                  · omega
                  · omega

theorem authenticateSocks_cases (cfg : AuthConfig) (client : Str) :
    authenticateSocks cfg client = ⟨false, []⟩ ∨
    authenticateSocks cfg client = ⟨true, [Char.ofNat 0x01, Char.ofNat 0x00]⟩ ∨
    authenticateSocks cfg client = ⟨false, [Char.ofNat 0x01, Char.ofNat 0x01]⟩ := by
  have key : ∀ P : SocksAuthResult → Prop, P ⟨false, []⟩ →
      P ⟨true, [Char.ofNat 0x01, Char.ofNat 0x00]⟩ →
      P ⟨false, [Char.ofNat 0x01, Char.ofNat 0x01]⟩ → P (authenticateSocks cfg client) := by
    intro P h1 h2 h3
    unfold authenticateSocks
    repeat' (first | assumption | split | dsimp only)
  exact key (fun r => r = ⟨false, []⟩ ∨ r = ⟨true, [Char.ofNat 0x01, Char.ofNat 0x00]⟩ ∨
      r = ⟨false, [Char.ofNat 0x01, Char.ofNat 0x01]⟩)
    (Or.inl rfl) (Or.inr (Or.inl rfl)) (Or.inr (Or.inr rfl))

/-- C4 as the code has it: when the stream starts with a frame (version 1,
length, username, length, password) `authenticateSocks` writes the 2-byte reply
`0x01 0x00` and returns true if both fields equal the configured credentials,
and writes `0x01 0x01` and returns false if they do not; when the stream does
not start with such a frame (wrong version byte, or the stream ends inside the
frame) it returns false and writes nothing. -/
theorem authenticateSocks_spec (cfg : AuthConfig) (client : Str) :
    (∀ user pass, StartsWithFrame client user pass →
      (user = cfg.AuthUsername ∧ pass = cfg.AuthPassword →
        authenticateSocks cfg client = ⟨true, [Char.ofNat 0x01, Char.ofNat 0x00]⟩) ∧
      (¬ (user = cfg.AuthUsername ∧ pass = cfg.AuthPassword) →
        authenticateSocks cfg client = ⟨false, [Char.ofNat 0x01, Char.ofNat 0x01]⟩)) ∧
    ((¬ ∃ user pass, StartsWithFrame client user pass) →
      authenticateSocks cfg client = ⟨false, []⟩) := by
  constructor
  · intro user pass hf
    rw [authenticateSocks_of_frame cfg client user pass hf]
    constructor
    · intro h; rw [if_pos h]
    · intro h; rw [if_neg h]
  · intro hno
    have hw : (authenticateSocks cfg client).written = [] := by
      by_contra hne
      exact hno (authenticateSocks_written_ne_nil cfg client hne)
    rcases authenticateSocks_cases cfg client with h | h | h
    · exact h
    · rw [h] at hw; simp at hw
    · rw [h] at hw; simp at hw

/-- C4, at concrete streams: with the credentials `u` / `pw`, the frame
`01 01 'u' 02 'p' 'w'` is answered `01 00`, the frame with the password `px`
is answered `01 01`. -/
theorem authenticateSocks_spec_witness :
    authenticateSocks ⟨true, "u".toList, "pw".toList⟩
      [Char.ofNat 1, Char.ofNat 1, 'u', Char.ofNat 2, 'p', 'w'] =
        ⟨true, [Char.ofNat 0x01, Char.ofNat 0x00]⟩ ∧
    authenticateSocks ⟨true, "u".toList, "pw".toList⟩
      [Char.ofNat 1, Char.ofNat 1, 'u', Char.ofNat 2, 'p', 'x'] =
        ⟨false, [Char.ofNat 0x01, Char.ofNat 0x01]⟩ := by
  constructor
  · exact ((authenticateSocks_spec ⟨true, "u".toList, "pw".toList⟩ _).1 "u".toList "pw".toList
      ⟨Char.ofNat 1, Char.ofNat 2, [], by decide, by decide, by decide, by decide, by decide⟩).1
      ⟨rfl, rfl⟩
  · exact ((authenticateSocks_spec ⟨true, "u".toList, "pw".toList⟩ _).1 "u".toList "px".toList
      ⟨Char.ofNat 1, Char.ofNat 2, [], by decide, by decide, by decide, by decide, by decide⟩).2
      (by decide)

/-- C4 fails as stated: on a frame with the version byte 5, and on a frame cut
off inside the password, `authenticateSocks` returns false without writing any
reply (the claim has it write `0x01 0x01`). -/
theorem authenticateSocks_no_reply_counterexample :
    authenticateSocks ⟨true, "u".toList, "pw".toList⟩
      [Char.ofNat 5, Char.ofNat 1, 'u', Char.ofNat 2, 'p', 'w'] = ⟨false, []⟩ ∧
    authenticateSocks ⟨true, "u".toList, "pw".toList⟩
      [Char.ofNat 1, Char.ofNat 1, 'u', Char.ofNat 2, 'p'] = ⟨false, []⟩ ∧
    (⟨false, []⟩ : SocksAuthResult) ≠ ⟨false, [Char.ofNat 0x01, Char.ofNat 0x01]⟩ := by
  decide

/-! ## Request-line parsing -/

theorem SplitN_three_of_fields (m t v : Str) (hm : ' ' ∉ m) (ht : ' ' ∉ t) :
    SplitN (m ++ ' ' :: (t ++ ' ' :: v)) ' ' 3 = [m, t, v] := by
  have hlen : min 3 ((m ++ ' ' :: (t ++ ' ' :: v)).length + 1) - 1 = 2 := by
    simp only [List.length_append, List.length_cons]
    omega
  unfold SplitN
  rw [if_neg (by decide), hlen]
  have d1 : (m ++ ' ' :: (t ++ ' ' :: v)).drop (m.length + 1) = t ++ ' ' :: v := by
    rw [show m ++ ' ' :: (t ++ ' ' :: v) = (m ++ [' ']) ++ (t ++ ' ' :: v) by simp]
    exact List.drop_left' (by simp)
  have d2 : (t ++ ' ' :: v).drop (t.length + 1) = v := by
    rw [show t ++ ' ' :: v = (t ++ [' ']) ++ v by simp]
    exact List.drop_left' (by simp)
  simp only [splitLoop, IndexByte_append_cons m _ ' ' hm, d1,
    IndexByte_append_cons t _ ' ' ht, d2, List.take_left']

theorem SplitN_three_fields (s : Str) (h : 3 ≤ (SplitN s ' ' 3).length) :
    ∃ m t v, s = m ++ ' ' :: (t ++ ' ' :: v) ∧ ' ' ∉ m ∧ ' ' ∉ t ∧
      SplitN s ' ' 3 = [m, t, v] := by
  unfold SplitN at h
  rw [if_neg (by decide)] at h
  have hsl : ∀ n x, n ≤ 1 → (splitLoop ' ' n x).length ≤ 2 := by
    intro n x hn
    match n, hn with
    | 0, _ => simp [splitLoop]
    | 1, _ =>
      simp only [splitLoop]
      cases IndexByte x ' ' <;> simp
  have hfuel : min 3 (s.length + 1) - 1 = 2 := by
    by_contra hne
    have := hsl (min 3 (s.length + 1) - 1) s (by omega)
    omega
  rw [hfuel] at h
  simp only [splitLoop] at h
  cases h1 : IndexByte s ' ' with
  | none => rw [h1] at h; simp at h
  | some i =>
    rw [h1] at h
    simp only at h
    cases h2 : IndexByte (s.drop (i + 1)) ' ' with
    | none => rw [h2] at h; simp at h
    | some j =>
      obtain ⟨e1, f1⟩ := IndexByte_eq_some s ' ' i h1
      obtain ⟨e2, f2⟩ := IndexByte_eq_some (s.drop (i + 1)) ' ' j h2
      have hs : s = s.take i ++ ' ' :: ((s.drop (i + 1)).take j ++
          ' ' :: (s.drop (i + 1)).drop (j + 1)) := by
        rw [← e2]; exact e1
      refine ⟨s.take i, (s.drop (i + 1)).take j, (s.drop (i + 1)).drop (j + 1), hs, f1, f2, ?_⟩
      have := SplitN_three_of_fields _ _ ((s.drop (i + 1)).drop (j + 1)) f1 f2
      rw [← hs] at this
      exact this

/-- The request-line test of `handleHTTP` succeeds exactly when the line, without
its line end and surrounding white space, is `m SP t SP v` with `m` and `t`
non-empty and free of spaces and `v` non-empty. -/
theorem requestLineParts_eq_some_iff (line l m t v : Str) :
    requestLineParts line = some (l, m, t, v) ↔
      l = TrimRight line "\r\n".toList ∧
      TrimSpace (TrimRight line "\r\n".toList) = m ++ ' ' :: (t ++ ' ' :: v) ∧
      ' ' ∉ m ∧ ' ' ∉ t ∧ m ≠ [] ∧ t ≠ [] ∧ v ≠ [] := by
  unfold requestLineParts
  constructor
  · intro h
    simp only at h
    split at h
    · cases h
    · rename_i hc
      simp only [not_or, not_lt] at hc
      obtain ⟨h3, h0, h1, h2⟩ := hc
      obtain ⟨m2, t2, v2, hs, hm, ht, hsplit⟩ := SplitN_three_fields _ h3
      rw [hsplit] at h h0 h1 h2
      simp only [List.getD_cons_zero, List.getD_cons_succ, Option.some.injEq,
        Prod.mk.injEq] at h h0 h1 h2
      obtain ⟨rfl, rfl, rfl, rfl⟩ := h
      exact ⟨rfl, hs, hm, ht, h0, h1, h2⟩
  · rintro ⟨rfl, hs, hm, ht, h0, h1, h2⟩
    simp only
    rw [hs, SplitN_three_of_fields m t v hm ht]
    simp [h0, h1, h2]

theorem requestLineParts_eq_none_iff (line : Str) :
    requestLineParts line = none ↔
      ¬ ∃ m t v, TrimSpace (TrimRight line "\r\n".toList) = m ++ ' ' :: (t ++ ' ' :: v) ∧
        ' ' ∉ m ∧ ' ' ∉ t ∧ m ≠ [] ∧ t ≠ [] ∧ v ≠ [] := by
  constructor
  · rintro h ⟨m, t, v, hx⟩
    have := (requestLineParts_eq_some_iff line _ m t v).2 ⟨rfl, hx⟩
    rw [h] at this
    cases this
  · intro h
    cases hr : requestLineParts line with
    | none => rfl
    | some r =>
      obtain ⟨l, m, t, v⟩ := r
      exact absurd ⟨m, t, v, ((requestLineParts_eq_some_iff line l m t v).1 hr).2⟩ h

theorem requestLineParts_of_no_space (line : Str)
    (h : ' ' ∉ TrimSpace (TrimRight line "\r\n".toList)) : requestLineParts line = none := by
  rw [requestLineParts_eq_none_iff]
  rintro ⟨m, t, v, hs, -⟩
  apply h
  rw [hs]
  simp

theorem requestLineParts_of_double_space (line m rest : Str)
    (hs : TrimSpace (TrimRight line "\r\n".toList) = m ++ ' ' :: ' ' :: rest)
    (hm : ' ' ∉ m) : requestLineParts line = none := by
  rw [requestLineParts_eq_none_iff]
  rintro ⟨m2, t, v, hs2, hm2, ht, -, htne, -⟩
  have i1 := IndexByte_append_cons m (' ' :: rest) ' ' hm
  have i2 := IndexByte_append_cons m2 (t ++ ' ' :: v) ' ' hm2
  rw [← hs] at i1
  rw [← hs2, i1] at i2
  have hlen : m.length = m2.length := by simpa using i2
  rw [hs] at hs2
  have hd := congrArg (List.drop (m.length + 1)) hs2
  have d1 : (m ++ ' ' :: ' ' :: rest).drop (m.length + 1) = ' ' :: rest := by
    rw [show m ++ ' ' :: ' ' :: rest = (m ++ [' ']) ++ (' ' :: rest) by simp]
    exact List.drop_left' (by simp)
  have d2 : (m2 ++ ' ' :: (t ++ ' ' :: v)).drop (m.length + 1) = t ++ ' ' :: v := by
    rw [show m2 ++ ' ' :: (t ++ ' ' :: v) = (m2 ++ [' ']) ++ (t ++ ' ' :: v) by simp]
    exact List.drop_left' (by simp [hlen])
  rw [d1, d2] at hd
  cases t with
  | nil => exact htne rfl
  | cons c cs =>
    simp only [List.cons_append, List.cons.injEq] at hd
    apply ht
    rw [← hd.1]
    simp

/-- C9 as the code has it. For a first line `line` (followed by `reader`):
`handleHTTP` strips the line end and the surrounding white space and cuts the
result at its first two single spaces. If that gives `m SP t SP v` with `m`, `t`
non-empty and free of spaces and `v` non-empty, the handler goes on to routing
with method `m`, request-target `t` and version `v`; for every other line it
writes exactly `HTTP/1.1 400 Bad Request\r\n\r\n`, dials nothing and closes.
So a line without a space (fields separated by tabs) and a line with two spaces
behind the method are answered with 400. `handleHTTPDebug` goes on to header
collection exactly when `parseRequestLine` returns no error, and otherwise
writes the same 400, dials nothing and closes. -/
theorem request_line_spec (h : Helpers) (env : Env) (cfg : AuthConfig) (line reader : Str)
    (hline : IsLine line) :
    (∀ m t v, (TrimSpace (TrimRight line "\r\n".toList) = m ++ ' ' :: (t ++ ' ' :: v) ∧
        ' ' ∉ m ∧ ' ' ∉ t ∧ m ≠ [] ∧ t ≠ [] ∧ v ≠ []) →
      handleHTTP env (line ++ reader) =
        (routeHTTP env (TrimRight line "\r\n".toList) reader m t v).close) ∧
    ((¬ ∃ m t v, TrimSpace (TrimRight line "\r\n".toList) = m ++ ' ' :: (t ++ ' ' :: v) ∧
        ' ' ∉ m ∧ ' ' ∉ t ∧ m ≠ [] ∧ t ≠ [] ∧ v ≠ []) →
      handleHTTP env (line ++ reader) =
        { clientOut := badRequest, dialed := [], remoteOut := [], closed := true }) ∧
    (' ' ∉ TrimSpace (TrimRight line "\r\n".toList) →
      handleHTTP env (line ++ reader) =
        { clientOut := badRequest, dialed := [], remoteOut := [], closed := true }) ∧
    (∀ m rest, TrimSpace (TrimRight line "\r\n".toList) = m ++ ' ' :: ' ' :: rest → ' ' ∉ m →
      handleHTTP env (line ++ reader) =
        { clientOut := badRequest, dialed := [], remoteOut := [], closed := true }) ∧
    (∀ m t v, h.parseRequestLine line = some (m, t, v) →
      handleHTTPDebug h env cfg (line ++ reader) =
        (headersHTTPDebug h env cfg line reader m t v).close) ∧
    (h.parseRequestLine line = none →
      handleHTTPDebug h env cfg (line ++ reader) =
        { clientOut := badRequest, dialed := [], remoteOut := [], closed := true }) := by
  have hread := ReadString_isLine line reader hline
  have hbad : requestLineParts line = none → handleHTTP env (line ++ reader) =
      { clientOut := badRequest, dialed := [], remoteOut := [], closed := true } := by
    intro hp
    simp only [handleHTTP, hread, hp]
    rfl
  refine ⟨?_, ?_, ?_, ?_, ?_, ?_⟩
  · intro m t v hx
    have hp := (requestLineParts_eq_some_iff line _ m t v).2 ⟨rfl, hx⟩
    simp only [handleHTTP, hread, hp]
  · intro hx
    exact hbad ((requestLineParts_eq_none_iff line).2 hx)
  · intro hx
    exact hbad (requestLineParts_of_no_space line hx)
  · intro m rest hs hm
    exact hbad (requestLineParts_of_double_space line m rest hs hm)
  · intro m t v hp
    simp only [handleHTTPDebug, hread, hp]
  · intro hp
    simp only [handleHTTPDebug, hread, hp]
    rfl

/-- C9, at concrete lines: `GET http://example.com/ HTTP/1.1` goes on to routing
with its three fields in both handlers; a request line without a version is
answered with 400 by both, and so are, by `handleHTTP`, the request line with
tabs for spaces and the one with two spaces behind `GET`. -/
theorem request_line_spec_witness :
    handleHTTP silentEnv ("GET http://example.com/ HTTP/1.1\r\n".toList ++ "\r\n".toList) =
      (routeHTTP silentEnv "GET http://example.com/ HTTP/1.1".toList "\r\n".toList
        "GET".toList "http://example.com/".toList "HTTP/1.1".toList).close ∧
    handleHTTPDebug specHelpers silentEnv ⟨false, [], []⟩
        ("GET http://example.com/ HTTP/1.1\r\n".toList ++ "\r\n".toList) =
      (headersHTTPDebug specHelpers silentEnv ⟨false, [], []⟩
        "GET http://example.com/ HTTP/1.1\r\n".toList "\r\n".toList
        "GET".toList "http://example.com/".toList "HTTP/1.1".toList).close ∧
    handleHTTP silentEnv ("GET http://example.com/\r\n".toList ++ "\r\n".toList) =
      { clientOut := badRequest, dialed := [], remoteOut := [], closed := true } ∧
    handleHTTPDebug specHelpers silentEnv ⟨false, [], []⟩
        ("GET http://example.com/\r\n".toList ++ "\r\n".toList) =
      { clientOut := badRequest, dialed := [], remoteOut := [], closed := true } ∧
    handleHTTP silentEnv ("GET\thttp://example.com/\tHTTP/1.1\r\n".toList ++ "\r\n".toList) =
      { clientOut := badRequest, dialed := [], remoteOut := [], closed := true } ∧
    handleHTTP silentEnv ("GET  http://example.com/ HTTP/1.1\r\n".toList ++ "\r\n".toList) =
      { clientOut := badRequest, dialed := [], remoteOut := [], closed := true } := by
  have good : IsLine "GET http://example.com/ HTTP/1.1\r\n".toList :=
    ⟨"GET http://example.com/ HTTP/1.1\r".toList, by decide, by decide⟩
  have bad : IsLine "GET http://example.com/\r\n".toList :=
    ⟨"GET http://example.com/\r".toList, by decide, by decide⟩
  have tabs : IsLine "GET\thttp://example.com/\tHTTP/1.1\r\n".toList :=
    ⟨"GET\thttp://example.com/\tHTTP/1.1\r".toList, by decide, by decide⟩
  have wide : IsLine "GET  http://example.com/ HTTP/1.1\r\n".toList :=
    ⟨"GET  http://example.com/ HTTP/1.1\r".toList, by decide, by decide⟩
  refine ⟨?_, ?_, ?_, ?_, ?_, ?_⟩
  · exact (request_line_spec specHelpers silentEnv ⟨false, [], []⟩ _ "\r\n".toList good).1
      "GET".toList "http://example.com/".toList "HTTP/1.1".toList (by decide)
  · exact (request_line_spec specHelpers silentEnv ⟨false, [], []⟩ _ "\r\n".toList
      good).2.2.2.2.1
      "GET".toList "http://example.com/".toList "HTTP/1.1".toList (by decide)
  · exact (request_line_spec specHelpers silentEnv ⟨false, [], []⟩ _ "\r\n".toList bad).2.1
      ((requestLineParts_eq_none_iff _).1 (by decide))
  · exact (request_line_spec specHelpers silentEnv ⟨false, [], []⟩ _ "\r\n".toList
      bad).2.2.2.2.2 (by decide)
  · exact (request_line_spec specHelpers silentEnv ⟨false, [], []⟩ _ "\r\n".toList
      tabs).2.2.1 (by decide)
  · exact (request_line_spec specHelpers silentEnv ⟨false, [], []⟩ _ "\r\n".toList
      wide).2.2.2.1 "GET".toList "http://example.com/ HTTP/1.1".toList (by decide) (by decide)

/-- C9 fails as stated: the lines `GET  http://example.com/ HTTP/1.1` (two
spaces) and `GET<TAB>http://example.com/<TAB>HTTP/1.1` split on white space into
three non-empty fields, yet `handleHTTP` answers both with 400. -/
theorem whitespace_separated_request_line_counterexample :
    fieldsAux [] "GET  http://example.com/ HTTP/1.1\r\n".toList =
      ["GET".toList, "http://example.com/".toList, "HTTP/1.1".toList] ∧
    handleHTTP silentEnv "GET  http://example.com/ HTTP/1.1\r\nHost: example.com\r\n\r\n".toList =
      { clientOut := badRequest, dialed := [], remoteOut := [], closed := true } ∧
    fieldsAux [] "GET\thttp://example.com/\tHTTP/1.1\r\n".toList =
      ["GET".toList, "http://example.com/".toList, "HTTP/1.1".toList] ∧
    handleHTTP silentEnv "GET\thttp://example.com/\tHTTP/1.1\r\nHost: example.com\r\n\r\n".toList =
      { clientOut := badRequest, dialed := [], remoteOut := [], closed := true } := by
  decide

/-! ## Routing on the method -/

theorem upperByte_eq_iff (a b : Char) (hb : 'A' ≤ b ∧ b ≤ 'Z') :
    upperByte a = b ↔ a = b ∨ a.toNat = b.toNat + 32 := by
  have hA : ('A' : Char).toNat = 65 := by decide
  have hZ : ('Z' : Char).toNat = 90 := by decide
  have ha0 : ('a' : Char).toNat = 97 := by decide
  have hz0 : ('z' : Char).toNat = 122 := by decide
  rw [char_le_iff, char_le_iff, hA, hZ] at hb
  unfold upperByte
  by_cases ha : 'a' ≤ a ∧ a ≤ 'z'
  · rw [if_pos ha]
    rw [char_le_iff, char_le_iff, ha0, hz0] at ha
    have hn := toNat_ofNat_byte (a.toNat - 32) (by omega)
    constructor
    · intro h
      right
      have := congrArg Char.toNat h
      rw [hn] at this
      omega
    · rintro (h | h)
      · rw [h] at ha; omega
      · apply char_toNat_inj
        rw [hn]; omega
  · rw [if_neg ha]
    rw [char_le_iff, char_le_iff, ha0, hz0] at ha
    constructor
    · intro h; exact Or.inl h
    · rintro (h | h)
      · exact h
      · exfalso; apply ha; omega

theorem map_upperByte_eq_iff (t : Str) (ht : ∀ b ∈ t, 'A' ≤ b ∧ b ≤ 'Z') :
    ∀ s : Str, s.map upperByte = t ↔ EqualsIgnoringCase s t := by
  induction t with
  | nil =>
    intro s
    cases s with
    | nil => simp [EqualsIgnoringCase]
    | cons a s => simp [EqualsIgnoringCase]
  | cons b t ih =>
    intro s
    cases s with
    | nil => simp [EqualsIgnoringCase]
    | cons a s =>
      have hb := ht b (by simp)
      have iht := ih (fun x hx => ht x (by simp [hx])) s
      simp only [List.map_cons, List.cons.injEq, EqualsIgnoringCase, List.forall₂_cons]
      rw [upperByte_eq_iff a b hb, iht]
      rfl

/-- The test `strings.ToUpper(method) == "CONNECT"` of `handleHTTP` holds exactly
for the spellings of CONNECT in any mix of upper and lower case. -/
theorem ToUpper_eq_CONNECT_iff (method : Str) :
    ToUpper method = "CONNECT".toList ↔ EqualsIgnoringCase method "CONNECT".toList :=
  map_upperByte_eq_iff "CONNECT".toList (by decide) method

/-- The quiet handler routes a method to the tunnel exactly when it is CONNECT in
any letter case, and to the forward-proxy path otherwise. -/
theorem routeHTTP_spec (env : Env) (line reader method requestURI version : Str) :
    (EqualsIgnoringCase method "CONNECT".toList →
      routeHTTP env line reader method requestURI version =
        handleHTTPConnect env reader requestURI version) ∧
    (¬ EqualsIgnoringCase method "CONNECT".toList →
      routeHTTP env line reader method requestURI version =
        forwardHTTP env line reader method requestURI version) := by
  unfold routeHTTP
  constructor
  · intro h; rw [if_pos ((ToUpper_eq_CONNECT_iff method).2 h)]
  · intro h; rw [if_neg (fun e => h ((ToUpper_eq_CONNECT_iff method).1 e))]

/-- The debug handler routes the two spellings `CONNECT` and `connect` to the
tunnel and every other method, mixed-case spellings of CONNECT included, to the
forward-proxy path. -/
theorem routeHTTPDebug_spec (env : Env) (line reader method requestURI version : Str)
    (headers : Headers) :
    ((method = "CONNECT".toList ∨ method = "connect".toList) →
      routeHTTPDebug env line reader method requestURI version headers =
        handleHTTPConnectDebug env reader requestURI version) ∧
    (¬ (method = "CONNECT".toList ∨ method = "connect".toList) →
      routeHTTPDebug env line reader method requestURI version headers =
        forwardHTTPDebug env line reader method requestURI version headers) := by
  unfold routeHTTPDebug
  constructor
  · intro h; rw [if_pos h]
  · intro h; rw [if_neg h]

/-- C10 fails on the code in debug mode: the method `Connect` is CONNECT up to
letter case, and `handleHTTP` opens the tunnel to `example.com:443` for it,
but `handleHTTPDebug` compares with the two spellings `CONNECT` and `connect`
only and takes the forward-proxy path: it dials `:80` and sends the request on,
and never answers `200 Connection Established`. -/
theorem mixed_case_connect_not_tunnelled_in_debug :
    EqualsIgnoringCase "Connect".toList "CONNECT".toList ∧
    handleHTTP silentEnv "Connect example.com:443 HTTP/1.1\r\nHost: example.com:443\r\n\r\n".toList =
      { clientOut := "HTTP/1.1 200 Connection Established\r\n\r\n".toList,
        dialed := ["example.com:443".toList],
        remoteOut := [],
        closed := true } ∧
    handleHTTPDebug specHelpers silentEnv ⟨false, [], []⟩
        "Connect example.com:443 HTTP/1.1\r\nHost: example.com:443\r\n\r\n".toList =
      { clientOut := [],
        dialed := [":80".toList],
        remoteOut := "Connect 443 HTTP/1.1\r\nhost: example.com:443\r\n\r\n".toList,
        closed := true } ∧
    (∀ (env : Env) (line reader requestURI version : Str) (headers : Headers),
      routeHTTPDebug env line reader "Connect".toList requestURI version headers =
        forwardHTTPDebug env line reader "Connect".toList requestURI version headers) := by
  refine ⟨by decide, by decide, by decide, ?_⟩
  intro env line reader requestURI version headers
  exact (routeHTTPDebug_spec env line reader _ requestURI version headers).2 (by decide)

/-! ## The CONNECT tunnel (`handleHTTPConnect`) -/

theorem drainHeaders_lines (blank payload : Str)
    (hb : blank = "\r\n".toList ∨ blank = "\n".toList) :
    ∀ (headers : List Str), (∀ l ∈ headers, IsHeaderLine l) →
    ∀ fuel, headers.length + 1 ≤ fuel →
      drainHeaders fuel (headers.flatten ++ blank ++ payload) = some payload := by
  have hblank : IsLine blank := by
    rcases hb with rfl | rfl
    · exact ⟨['\r'], by decide, by decide⟩
    · exact ⟨[], by decide, by decide⟩
  intro headers
  induction headers with
  | nil =>
    intro _ fuel hf
    cases fuel with
    | zero => omega
    | succ k =>
      simp only [List.flatten_nil, List.nil_append, drainHeaders]
      rw [ReadString_isLine blank payload hblank]
      simp only
      rw [if_pos hb]
  | cons l ls ih =>
    intro hh fuel hf
    cases fuel with
    | zero => omega
    | succ k =>
      have hl := hh l (by simp)
      have : (l :: ls).flatten ++ blank ++ payload = l ++ (ls.flatten ++ blank ++ payload) := by
        simp
      rw [this, drainHeaders, ReadString_isLine l _ hl.1]
      simp only
      rw [if_neg (by
        rintro (h | h)
        · exact hl.2.1 h
        · exact hl.2.2 h)]
      exact ih (fun x hx => hh x (by simp [hx])) k (by simp at hf; omega)

theorem length_flatten_ge (headers : List Str) (hh : ∀ l ∈ headers, IsHeaderLine l) :
    headers.length ≤ headers.flatten.length := by
  induction headers with
  | nil => simp
  | cons l ls ih =>
    have hl := hh l (by simp)
    obtain ⟨body, hb, -⟩ := hl.1
    have : 1 ≤ l.length := by rw [hb]; simp
    have := ih (fun x hx => hh x (by simp [hx]))
    simp only [List.length_cons, List.flatten_cons, List.length_append]
    omega

/-- C5: when the reader of `handleHTTPConnect` holds any number of header lines,
a blank line (`"\r\n"` or `"\n"`) and then an arbitrary payload, and the dial of
the target succeeds, the header loop consumes exactly the header lines and the
blank line, the client is sent `<version> 200 Connection Established\r\n\r\n`
(followed by what the remote sends), the target is dialled once, and the bytes
written to the remote are exactly the payload. The same holds of `handleHTTP`
on the whole stream, for every request line that it parses into a method that
is CONNECT in any letter case, the target and the version. -/
theorem handleHTTPConnect_tunnel (env : Env) (headers : List Str)
    (blank payload hostPort version : Str) (peer : Str → Str)
    (hh : ∀ l ∈ headers, IsHeaderLine l)
    (hb : blank = "\r\n".toList ∨ blank = "\n".toList)
    (hd : env.dial hostPort = some peer) :
    drainHeaders (headers.flatten ++ blank ++ payload).length
      (headers.flatten ++ blank ++ payload) = some payload ∧
    handleHTTPConnect env (headers.flatten ++ blank ++ payload) hostPort version =
      { clientOut := version ++ " 200 Connection Established\r\n\r\n".toList ++ peer payload,
        dialed := [hostPort],
        remoteOut := payload,
        closed := false } ∧
    (∀ line l method, IsLine line →
      requestLineParts line = some (l, method, hostPort, version) →
      EqualsIgnoringCase method "CONNECT".toList →
      handleHTTP env (line ++ (headers.flatten ++ blank ++ payload)) =
        { clientOut := version ++ " 200 Connection Established\r\n\r\n".toList ++ peer payload,
          dialed := [hostPort],
          remoteOut := payload,
          closed := true }) := by
  have hdrain : drainHeaders (headers.flatten ++ blank ++ payload).length
      (headers.flatten ++ blank ++ payload) = some payload := by
    apply drainHeaders_lines blank payload hb headers hh
    have h1 := length_flatten_ge headers hh
    have h2 : 1 ≤ blank.length := by
      rcases hb with rfl | rfl <;> decide
    simp only [List.length_append]
    omega
  have htunnel : handleHTTPConnect env (headers.flatten ++ blank ++ payload) hostPort version =
      { clientOut := version ++ " 200 Connection Established\r\n\r\n".toList ++ peer payload,
        dialed := [hostPort],
        remoteOut := payload,
        closed := false } := by
    unfold handleHTTPConnect
    rw [hdrain]
    simp only [hd, relay, copyWithPool, List.nil_append]
  refine ⟨hdrain, htunnel, ?_⟩
  intro line l method hline hparts hm
  have hread := ReadString_isLine line (headers.flatten ++ blank ++ payload) hline
  simp only [handleHTTP, hread, hparts, routeHTTP,
    if_pos ((ToUpper_eq_CONNECT_iff method).2 hm), htunnel, Outcome.close]

/-- C5, at a concrete stream: two header lines, a blank line and the payload
`PAYLOAD\n\r\nmore`; the remote is sent exactly the payload, also when the
stream starts with the request line `connect example.com:443 HTTP/1.1`. -/
theorem handleHTTPConnect_tunnel_witness :
    handleHTTPConnect silentEnv
        (["Host: example.com:443\r\n".toList, "User-Agent: x\r\n".toList].flatten ++
          "\r\n".toList ++ "PAYLOAD\n\r\nmore".toList) "example.com:443".toList "HTTP/1.1".toList =
      { clientOut := "HTTP/1.1".toList ++ " 200 Connection Established\r\n\r\n".toList ++
          (fun _ => []) "PAYLOAD\n\r\nmore".toList,
        dialed := ["example.com:443".toList],
        remoteOut := "PAYLOAD\n\r\nmore".toList,
        closed := false } ∧
    handleHTTP silentEnv
      ("connect example.com:443 HTTP/1.1\r\n".toList ++
        (["Host: example.com:443\r\n".toList, "User-Agent: x\r\n".toList].flatten ++
          "\r\n".toList ++ "PAYLOAD\n\r\nmore".toList)) =
      { clientOut := "HTTP/1.1".toList ++ " 200 Connection Established\r\n\r\n".toList ++
          (fun _ => []) "PAYLOAD\n\r\nmore".toList,
        dialed := ["example.com:443".toList],
        remoteOut := "PAYLOAD\n\r\nmore".toList,
        closed := true } := by
  have key := handleHTTPConnect_tunnel silentEnv
    ["Host: example.com:443\r\n".toList, "User-Agent: x\r\n".toList]
    "\r\n".toList "PAYLOAD\n\r\nmore".toList "example.com:443".toList "HTTP/1.1".toList
    (fun _ => [])
    (by
      intro l hl
      simp only [List.mem_cons, List.mem_singleton, List.not_mem_nil, or_false] at hl
      rcases hl with rfl | rfl
      · exact ⟨⟨"Host: example.com:443\r".toList, by decide, by decide⟩, by decide, by decide⟩
      · exact ⟨⟨"User-Agent: x\r".toList, by decide, by decide⟩, by decide, by decide⟩)
    (Or.inl rfl) rfl
  exact ⟨key.2.1, key.2.2 "connect example.com:443 HTTP/1.1\r\n".toList
    "connect example.com:443 HTTP/1.1".toList "connect".toList
    ⟨"connect example.com:443 HTTP/1.1\r".toList, by decide, by decide⟩ (by decide) (by decide)⟩

/-! ## Request-target parsing (`parseHostPortFromAbsoluteURI`) -/

theorem JoinHostPort_of_no_colon (host port : Str) (h : ':' ∉ host) :
    JoinHostPort host port = host ++ ":".toList ++ port := by
  unfold JoinHostPort
  rw [(IndexByte_eq_none_iff host ':').2 h]
  rfl

/-- The only error of `parseHostPortFromAbsoluteURI` is an error of
`url.Parse`. -/
theorem parseHostPortFromAbsoluteURI_eq_none_iff (urlParse : Str → Option URL)
    (method requestURI version : Str) :
    parseHostPortFromAbsoluteURI urlParse method requestURI version = none ↔
      urlParse requestURI = none := by
  unfold parseHostPortFromAbsoluteURI
  cases urlParse requestURI <;> simp

/-- For a URL without a host, which is what `url.Parse` returns for every
request-target in origin form, `parseHostPortFromAbsoluteURI` reports no error:
the target is `:80` (`:443` when the scheme is `https`). -/
theorem parseHostPortFromAbsoluteURI_of_no_host (urlParse : Str → Option URL)
    (method requestURI version : Str) (u : URL) (hu : urlParse requestURI = some u)
    (hh : u.Host = []) :
    parseHostPortFromAbsoluteURI urlParse method requestURI version =
      some (":".toList ++ (if ToLower u.Scheme = "https".toList then "443".toList else "80".toList),
        method ++ " ".toList ++ u.RequestURI ++ " ".toList ++ version) := by
  have hn : u.Hostname = [] := by simp [URL.Hostname, hh, splitHostPort, LastIndexByte, IndexByte, HasPrefix]
  have hp : u.Port = [] := by simp [URL.Port, hh, splitHostPort, LastIndexByte, IndexByte, HasPrefix]
  unfold parseHostPortFromAbsoluteURI
  rw [hu]
  simp only [hn, hp, if_true, JoinHostPort, IndexByte, Option.isSome_none, Bool.false_eq_true,
    if_false, List.nil_append]

/-- C7: when `url.Parse` accepts the request-target as the URL `u`,
`parseHostPortFromAbsoluteURI` succeeds; `hostPort` is `net.JoinHostPort` of the
host name of `u` and of the port, which is the explicit port of `u` if there is
one, else `443` when the scheme is `https` in any letter case, else `80` (so
`hostPort` is `host:port` for a host name without a colon); the new first line
is `<method> <RequestURI of u> <version>` with method and version unchanged,
where for a non-opaque `u` the request URI is the escaped path (`/` when the
path is empty) followed by `?query` when there is a query. -/
theorem parseHostPortFromAbsoluteURI_spec (urlParse : Str → Option URL)
    (method requestURI version : Str) (u : URL) (hu : urlParse requestURI = some u) :
    ∃ port hostPort newFirstLine,
      parseHostPortFromAbsoluteURI urlParse method requestURI version =
        some (hostPort, newFirstLine) ∧
      port = (if u.Port ≠ [] then u.Port
              else if ToLower u.Scheme = "https".toList then "443".toList else "80".toList) ∧
      hostPort = JoinHostPort u.Hostname port ∧
      (':' ∉ u.Hostname → hostPort = u.Hostname ++ ":".toList ++ port) ∧
      newFirstLine = method ++ " ".toList ++ u.RequestURI ++ " ".toList ++ version ∧
      (u.Opaque = [] →
        u.RequestURI = (if u.EscapedPath = [] then "/".toList else u.EscapedPath) ++
          (if u.ForceQuery = true ∨ u.RawQuery ≠ [] then "?".toList ++ u.RawQuery else [])) := by
  refine ⟨_, _, _, ?_, rfl, rfl, ?_, rfl, ?_⟩
  · unfold parseHostPortFromAbsoluteURI
    rw [hu]
    by_cases hp : u.Port = [] <;> simp [hp]
  · intro h
    exact JoinHostPort_of_no_colon _ _ h
  · intro ho
    unfold URL.RequestURI
    simp only [ho, if_true]
    by_cases hq : u.ForceQuery = true ∨ u.RawQuery ≠ []
    · simp [hq]
    · simp [hq]

/-- C7, at concrete request-targets: `https://example.com:8443/a?b=c` gives
`example.com:8443` and `POST /a?b=c HTTP/1.0`; `http://example.com/` gives
`example.com:80` and `GET / HTTP/1.1`. -/
theorem parseHostPortFromAbsoluteURI_spec_witness :
    (∃ port hostPort newFirstLine,
      parseHostPortFromAbsoluteURI urlParseExamples "POST".toList
        "https://example.com:8443/a?b=c".toList "HTTP/1.0".toList =
        some (hostPort, newFirstLine) ∧
      port = "8443".toList ∧ hostPort = "example.com:8443".toList ∧
      newFirstLine = "POST /a?b=c HTTP/1.0".toList) ∧
    parseHostPortFromAbsoluteURI urlParseExamples "GET".toList
      "http://example.com/".toList "HTTP/1.1".toList =
      some ("example.com:80".toList, "GET / HTTP/1.1".toList) := by
  refine ⟨?_, by decide⟩
  obtain ⟨port, hostPort, newFirstLine, h1, h2, h3, -, h5, -⟩ :=
    parseHostPortFromAbsoluteURI_spec urlParseExamples "POST".toList
      "https://example.com:8443/a?b=c".toList "HTTP/1.0".toList
      { Scheme := "https".toList, Host := "example.com:8443".toList, Path := "/a".toList,
        RawQuery := "b=c".toList } (by decide)
  refine ⟨port, hostPort, newFirstLine, h1, ?_, ?_, ?_⟩
  · rw [h2]; decide
  · rw [h3, h2]; decide
  · rw [h5]; decide

/-- C8 fails on the code: `url.Parse` accepts the origin-form target
`/index.html` (as a URL with a path and neither scheme nor host), so
`parseHostPortFromAbsoluteURI` returns no error but the target `:80`, and
`handleHTTP` dials `:80` and forwards the request instead of answering 400. -/
theorem origin_form_target_is_dialed :
    urlParseExamples "/index.html".toList = some { Path := "/index.html".toList } ∧
    parseHostPortFromAbsoluteURI urlParseExamples "GET".toList "/index.html".toList
      "HTTP/1.1".toList = some (":80".toList, "GET /index.html HTTP/1.1".toList) ∧
    handleHTTP silentEnv "GET /index.html HTTP/1.1\r\nHost: example.com\r\n\r\n".toList =
      { clientOut := [],
        dialed := [":80".toList],
        remoteOut := "GET /index.html HTTP/1.1\r\nHost: example.com\r\n\r\n".toList,
        closed := true } ∧
    handleHTTPDebug specHelpers silentEnv ⟨false, [], []⟩
        "GET /index.html HTTP/1.1\r\nHost: example.com\r\n\r\n".toList =
      { clientOut := [],
        dialed := [":80".toList],
        remoteOut := "GET /index.html HTTP/1.1\r\nhost: example.com\r\n\r\n".toList,
        closed := true } := by
  decide

/-! ## Authentication in the HTTP handlers -/

/-- The debug handler answers a request whose collected headers have no
acceptable `proxy-authorization` entry with the 407 reply and dials nothing. -/
theorem authHTTPDebug_rejects (env : Env) (cfg : AuthConfig)
    (line reader method requestURI version : Str) (headers : Headers)
    (hreq : cfg.AuthRequired = true)
    (hbad : validateAuth cfg (headers.index "proxy-authorization".toList) = false) :
    authHTTPDebug env cfg line reader method requestURI version headers =
      { clientOut := proxyAuthRequired, dialed := [], remoteOut := [], closed := false } := by
  unfold authHTTPDebug
  rw [if_pos ⟨hreq, hbad⟩]
  rfl

/-- In debug mode every request whose request line and header block are
accepted, and whose collected headers have no `proxy-authorization` entry that
`validateAuth` accepts (a missing entry counts as the empty string), is
answered with exactly the 407 reply; nothing is dialled and the connection is
closed. -/
theorem handleHTTPDebug_rejects (h : Helpers) (env : Env) (cfg : AuthConfig)
    (line reader method requestURI version body : Str) (headers : Headers)
    (hline : IsLine line)
    (hparse : h.parseRequestLine line = some (method, requestURI, version))
    (hheaders : h.readHeaders reader = some (headers, body))
    (hreq : cfg.AuthRequired = true)
    (hbad : validateAuth cfg (headers.index "proxy-authorization".toList) = false) :
    handleHTTPDebug h env cfg (line ++ reader) =
      { clientOut := proxyAuthRequired, dialed := [], remoteOut := [], closed := true } := by
  have hread := ReadString_isLine line reader hline
  simp only [handleHTTPDebug, hread, hparse, headersHTTPDebug, hheaders,
    authHTTPDebug_rejects env cfg line body method requestURI version headers hreq hbad,
    Outcome.close]

/-- `handleHTTP` has no 407 answer of its own: when the bytes of the 407 reply
reach the client, a remote was dialled (and they are its bytes). -/
theorem handleHTTP_never_answers_407 (env : Env) (client : Str) :
    (handleHTTP env client).clientOut ≠ proxyAuthRequired ∨
      (handleHTTP env client).dialed ≠ [] := by
  by_cases h : (handleHTTP env client).dialed = []
  · left
    intro hc
    revert h hc
    unfold handleHTTP
    cases ReadString '\n' client with
    | none =>
      intro _ hc
      simp only [Outcome.close, reply] at hc
      exact absurd hc (by decide)
    | some r =>
      obtain ⟨line, reader⟩ := r
      simp only
      cases requestLineParts line with
      | none =>
      intro _ hc
      simp only [Outcome.close, reply] at hc
      exact absurd hc (by decide)
      | some p =>
        obtain ⟨l, m, t, v⟩ := p
        simp only [routeHTTP]
        split
        · unfold handleHTTPConnect
          cases drainHeaders reader.length reader with
          | none =>
            intro _ hc
            simp only [Outcome.close, reply] at hc
            have := congrArg List.reverse hc
            simp only [List.reverse_append] at this
            revert this
            simp [proxyAuthRequired]
          | some rd =>
            simp only
            cases env.dial t with
            | none => intro hd; simp [Outcome.close, reply] at hd
            | some peer => intro hd; simp [Outcome.close, relay] at hd
        · unfold forwardHTTP
          cases parseHostPortFromAbsoluteURI env.urlParse m t v with
          | none =>
      intro _ hc
      simp only [Outcome.close, reply] at hc
      exact absurd hc (by decide)
          | some q =>
            obtain ⟨hp, nf⟩ := q
            simp only
            cases env.dial hp with
            | none => intro hd; simp [Outcome.close, reply] at hd
            | some peer => intro hd; simp [Outcome.close, relay] at hd
  · right; exact h

/-- C1 fails on the code in quiet mode: with the credentials `user` / `pass`
configured and required, a request without a `Proxy-Authorization` header is
answered with the 407 reply by `handleHTTPDebug`, but the dispatcher's quiet
handler `handleHTTP` dials `example.com:80`, forwards the request and writes no
407. -/
theorem quiet_handler_skips_authentication :
    validateAuth ⟨true, "user".toList, "pass".toList⟩ [] = false ∧
    (∀ socks socksDebug : Str → Outcome,
      handleConnection socks socksDebug specHelpers silentEnv
          ⟨3128, false, true, false, [], ["10.0.0.0/8".toList], 30000000000, 32768, 1000⟩
          ⟨true, "user".toList, "pass".toList⟩ (some [10, 1, 2, 3])
          [parsedIPv4Net [10, 0, 0, 0] 8]
          "GET http://example.com/ HTTP/1.1\r\nHost: example.com\r\n\r\n".toList =
        { clientOut := proxyAuthRequired, dialed := [], remoteOut := [], closed := true } ∧
      handleConnection socks socksDebug specHelpers silentEnv
          ⟨3128, false, false, false, [], ["10.0.0.0/8".toList], 30000000000, 32768, 1000⟩
          ⟨true, "user".toList, "pass".toList⟩ (some [10, 1, 2, 3])
          [parsedIPv4Net [10, 0, 0, 0] 8]
          "GET http://example.com/ HTTP/1.1\r\nHost: example.com\r\n\r\n".toList =
        { clientOut := [],
          dialed := ["example.com:80".toList],
          remoteOut := "GET / HTTP/1.1\r\nHost: example.com\r\n\r\n".toList,
          closed := true }) ∧
    proxyAuthRequired = "HTTP/1.1 407 Proxy Authentication Required\r\nProxy-Authenticate: Basic realm=\"GGProxy\"\r\n\r\n".toList := by
  refine ⟨by decide, fun _ _ => ⟨?_, ?_⟩, by decide⟩
  · have hd : handleHTTPDebug specHelpers silentEnv ⟨true, "user".toList, "pass".toList⟩
        "GET http://example.com/ HTTP/1.1\r\nHost: example.com\r\n\r\n".toList =
        { clientOut := proxyAuthRequired, dialed := [], remoteOut := [], closed := true } := by
      decide
    have ha : isAllowed [10, 1, 2, 3] [parsedIPv4Net [10, 0, 0, 0] 8] = true := by decide
    simp only [handleConnection, ha, hd]
    rfl
  · have hq : handleHTTP silentEnv
        "GET http://example.com/ HTTP/1.1\r\nHost: example.com\r\n\r\n".toList =
        { clientOut := [],
          dialed := ["example.com:80".toList],
          remoteOut := "GET / HTTP/1.1\r\nHost: example.com\r\n\r\n".toList,
          closed := true } := by
      decide
    have ha : isAllowed [10, 1, 2, 3] [parsedIPv4Net [10, 0, 0, 0] 8] = true := by decide
    simp only [handleConnection, ha, hq]
    rfl

/-! ## The forward-proxy path -/

theorem newFirstLine_ne_nil {urlParse : Str → Option URL} {method requestURI version : Str}
    {hostPort newFirstLine : Str}
    (h : parseHostPortFromAbsoluteURI urlParse method requestURI version =
      some (hostPort, newFirstLine)) : newFirstLine ≠ [] := by
  unfold parseHostPortFromAbsoluteURI at h
  cases hu : urlParse requestURI with
  | none => rw [hu] at h; cases h
  | some u =>
    rw [hu] at h
    simp only [Option.some.injEq, Prod.mk.injEq] at h
    rw [← h.2]
    intro hnil
    have := congrArg List.length hnil
    simp at this

/-- The header loop of the debug handler writes one line per collected entry
whose key is not `proxy-authorization`, in the order of the entries. -/
theorem forwardHeaders_eq (headers : Headers) :
    forwardHeaders headers =
      ((headers.filter (fun e => decide (e.1 ≠ "proxy-authorization".toList))).map
        (fun e => e.1 ++ ": ".toList ++ e.2 ++ "\r\n".toList)).flatten := by
  induction headers with
  | nil => rfl
  | cons e rest ih =>
    obtain ⟨k, v⟩ := e
    by_cases hk : k = "proxy-authorization".toList
    · rw [forwardHeaders, if_neg (by simpa using hk), ih,
        List.filter_cons_of_neg (by simpa using hk)]
    · have hk2 : k ≠ "proxy-authorization".toList := hk
      rw [forwardHeaders, if_pos hk2, ih, List.filter_cons_of_pos (by simpa using hk)]
      simp

/-- On its forward-proxy path `handleHTTP` sends the rewritten first line and
then relays the bytes that follow the request line as they are. -/
theorem forwardHTTP_bytes (env : Env) (line reader method requestURI version : Str)
    (hostPort newFirstLine : Str) (peer : Str → Str)
    (htarget : parseHostPortFromAbsoluteURI env.urlParse method requestURI version =
      some (hostPort, newFirstLine))
    (hdial : env.dial hostPort = some peer) :
    forwardHTTP env line reader method requestURI version =
      { clientOut := peer (newFirstLine ++ "\r\n".toList ++ reader),
        dialed := [hostPort],
        remoteOut := newFirstLine ++ "\r\n".toList ++ reader,
        closed := false } := by
  unfold forwardHTTP
  simp only [htarget, hdial, relay, copyWithPool, if_pos (newFirstLine_ne_nil htarget),
    List.nil_append]

/-- C6 as the code has it. In debug mode, for a request line that
`parseRequestLine` accepts with a method other than `CONNECT`/`connect`, a
header block that `readHeaders` collects as `headers` (leaving `body` in the
reader), passed authentication, a request-target that parses and a target that
can be dialled, the remote is sent the rewritten first line, then one line
`key: value` for every collected entry whose key is not `proxy-authorization`,
then a blank line, then the body; no `proxy-authorization` line is among them.
In quiet mode the request `GET http://example.com/ HTTP/1.1` with the header
`Host: example.com` reaches the remote as `GET / HTTP/1.1`, `Host: example.com`
and a blank line. -/
theorem forward_proxy_bytes (h : Helpers) (env : Env) (cfg : AuthConfig)
    (line reader method requestURI version body : Str) (headers : Headers)
    (hostPort newFirstLine : Str) (peer : Str → Str)
    (hline : IsLine line)
    (hparse : h.parseRequestLine line = some (method, requestURI, version))
    (hheaders : h.readHeaders reader = some (headers, body))
    (hauth : cfg.AuthRequired = false ∨
      validateAuth cfg (headers.index "proxy-authorization".toList) = true)
    (hmethod : ¬ (method = "CONNECT".toList ∨ method = "connect".toList))
    (htarget : parseHostPortFromAbsoluteURI env.urlParse method requestURI version =
      some (hostPort, newFirstLine))
    (hdial : env.dial hostPort = some peer) :
    (∃ sent headerLines,
      headerLines = (headers.filter (fun e => decide (e.1 ≠ "proxy-authorization".toList))).map
        (fun e => e.1 ++ ": ".toList ++ e.2 ++ "\r\n".toList) ∧
      sent = newFirstLine ++ "\r\n".toList ++ headerLines.flatten ++ "\r\n".toList ∧
      handleHTTPDebug h env cfg (line ++ reader) =
        { clientOut := peer (sent ++ body),
          dialed := [hostPort],
          remoteOut := sent ++ body,
          closed := true }) ∧
    handleHTTP silentEnv "GET http://example.com/ HTTP/1.1\r\nHost: example.com\r\n\r\n".toList =
      { clientOut := [],
        dialed := ["example.com:80".toList],
        remoteOut := "GET / HTTP/1.1\r\nHost: example.com\r\n\r\n".toList,
        closed := true } := by
  refine ⟨⟨_, _, rfl, rfl, ?_⟩, by decide⟩
  have hread := ReadString_isLine line reader hline
  have hnoauth : ¬ (cfg.AuthRequired = true ∧
      validateAuth cfg (headers.index "proxy-authorization".toList) = false) := by
    rintro ⟨h1, h2⟩
    rcases hauth with h3 | h3
    · rw [h1] at h3; cases h3
    · rw [h2] at h3; cases h3
  simp only [handleHTTPDebug, hread, hparse, headersHTTPDebug, hheaders, authHTTPDebug,
    if_neg hnoauth, routeHTTPDebug, if_neg hmethod, forwardHTTPDebug, htarget, hdial,
    if_pos (newFirstLine_ne_nil htarget), relay, copyWithPool, Outcome.close,
    forwardHeaders_eq, List.nil_append]

/-- C6, at a concrete request in debug mode: of the headers `Host`,
`Proxy-Authorization` and `Accept` the remote is sent `host` and `accept`. -/
theorem forward_proxy_bytes_witness :
    handleHTTPDebug specHelpers silentEnv ⟨true, "user".toList, "pass".toList⟩
        ("GET http://example.com/ HTTP/1.1\r\n".toList ++
          "Host: example.com\r\nProxy-Authorization: Basic dXNlcjpwYXNz\r\nAccept: */*\r\n\r\nBODY".toList) =
      { clientOut := [],
        dialed := ["example.com:80".toList],
        remoteOut := "GET / HTTP/1.1\r\nhost: example.com\r\naccept: */*\r\n\r\nBODY".toList,
        closed := true } := by
  obtain ⟨⟨sent, headerLines, h1, h2, h3⟩, -⟩ :=
    forward_proxy_bytes specHelpers silentEnv ⟨true, "user".toList, "pass".toList⟩
      "GET http://example.com/ HTTP/1.1\r\n".toList
      "Host: example.com\r\nProxy-Authorization: Basic dXNlcjpwYXNz\r\nAccept: */*\r\n\r\nBODY".toList
      "GET".toList "http://example.com/".toList "HTTP/1.1".toList "BODY".toList
      [("host".toList, "example.com".toList),
       ("proxy-authorization".toList, "Basic dXNlcjpwYXNz".toList),
       ("accept".toList, "*/*".toList)]
      "example.com:80".toList "GET / HTTP/1.1".toList (fun _ => [])
      ⟨"GET http://example.com/ HTTP/1.1\r".toList, by decide, by decide⟩
      (by decide) (by decide) (Or.inr (by decide)) (by decide) (by decide) rfl
  rw [h3, h2, h1]
  decide

/-- C6 fails as stated. In quiet mode the `Proxy-Authorization` line of the
client reaches the remote; in debug mode the request
`GET http://example.com/ HTTP/1.1` with the header `Host: example.com` reaches
the remote with the header line `host: example.com`, not `Host: example.com`. -/
theorem forwarded_headers_counterexample :
    handleHTTP silentEnv
        "GET http://example.com/ HTTP/1.1\r\nProxy-Authorization: Basic dXNlcjpwYXNz\r\n\r\n".toList =
      { clientOut := [],
        dialed := ["example.com:80".toList],
        remoteOut := "GET / HTTP/1.1\r\nProxy-Authorization: Basic dXNlcjpwYXNz\r\n\r\n".toList,
        closed := true } ∧
    handleHTTPDebug specHelpers silentEnv ⟨false, [], []⟩
        "GET http://example.com/ HTTP/1.1\r\nHost: example.com\r\n\r\n".toList =
      { clientOut := [],
        dialed := ["example.com:80".toList],
        remoteOut := "GET / HTTP/1.1\r\nhost: example.com\r\n\r\n".toList,
        closed := true } ∧
    "GET / HTTP/1.1\r\nhost: example.com\r\n\r\n".toList ≠
      "GET / HTTP/1.1\r\nHost: example.com\r\n\r\n".toList := by
  decide


/-! ## Loading the configuration -/

theorem skipSpace_fuel : ∀ (fuel : Nat) (s : Str), s.length ≤ fuel →
    skipSpace fuel s = skipSpace s.length s := by
  intro fuel
  induction fuel using Nat.strong_induction_on with
  | _ fuel ih =>
    intro s hle
    cases s with
    | nil =>
      cases fuel with
      | zero => rfl
      | succ k => simp [skipSpace]
    | cons c cs =>
      cases fuel with
      | zero => simp at hle
      | succ k =>
        simp only [List.length_cons, skipSpace]
        split
        · rfl
        · cases hl : leadingSpaceLen (c :: cs) with
          | zero => rfl
          | succ j =>
            simp only
            have hlen : ((c :: cs).drop (j + 1)).length ≤ cs.length := by
              simp only [List.length_drop, List.length_cons]; omega
            have hk : ((c :: cs).drop (j + 1)).length ≤ k := by
              simp at hle; omega
            rw [ih k (Nat.lt_succ_self k) _ hk, ih cs.length (by simp at hle; omega) _ hlen]

theorem unicodeSpaceEncodings_length : ∀ e ∈ unicodeSpaceEncodings, 0 < e.length := by
  decide

/-- A string has no white-space rune at its front exactly when it is empty, or
its first byte is no ASCII white space and no encoding of a white-space rune
is a prefix of it. -/
theorem leadingSpaceLen_cons_eq_zero_iff (c : Char) (cs : Str) :
    leadingSpaceLen (c :: cs) = 0 ↔
      asciiSpace c = false ∧
        ∀ e ∈ unicodeSpaceEncodings, ¬ e <+: (c :: cs).map Char.toNat := by
  unfold leadingSpaceLen
  dsimp only
  constructor
  · intro h
    cases ha : asciiSpace c with
    | true => rw [ha] at h; simp at h
    | false =>
      refine ⟨rfl, ?_⟩
      rw [ha] at h
      simp only [Bool.false_eq_true, if_false] at h
      intro e he hp
      cases hf : unicodeSpaceEncodings.find?
          (fun e => e.isPrefixOf ((c :: cs).map Char.toNat)) with
      | none =>
        have := List.find?_eq_none.1 hf e he
        exact this (List.isPrefixOf_iff_prefix.2 hp)
      | some e' =>
        rw [hf] at h
        simp only at h
        have := unicodeSpaceEncodings_length e' (List.mem_of_find?_eq_some hf)
        omega
  · rintro ⟨ha, hall⟩
    rw [ha]
    simp only [Bool.false_eq_true, if_false]
    have hf : unicodeSpaceEncodings.find?
        (fun e => e.isPrefixOf ((c :: cs).map Char.toNat)) = none := by
      apply List.find?_eq_none.2
      intro e he hp
      exact hall e he (List.isPrefixOf_iff_prefix.1 hp)
    rw [hf]

theorem asciiSpace_toNat (c : Char) (h : asciiSpace c = true) : c.toNat ≤ 32 := by
  unfold asciiSpace at h
  simp only [Bool.or_eq_true, decide_eq_true_eq] at h
  rcases h with ((((h | h) | h) | h) | h) | h <;> subst h <;> decide

theorem asciiSpace_of_printable (c : Char) (h : '!' ≤ c) : asciiSpace c = false := by
  cases ha : asciiSpace c with
  | false => rfl
  | true =>
    have h1 := asciiSpace_toNat c ha
    have h2 : ('!' : Char).toNat ≤ c.toNat := (char_le_iff _ _).1 h
    have h3 : ('!' : Char).toNat = 33 := by decide
    omega

theorem unicodeSpaceEncodings_head : ∀ e ∈ unicodeSpaceEncodings, ∀ b ∈ e.head?, 0xC2 ≤ b := by
  decide

theorem unicodeSpaceEncodings_last :
    ∀ e ∈ unicodeSpaceEncodings, ∀ b ∈ e.reverse.head?, 0x80 ≤ b := by
  decide

theorem leadingSpaceLen_of_printable (c : Char) (cs : Str) (h1 : '!' ≤ c) (h2 : c ≤ '~') :
    leadingSpaceLen (c :: cs) = 0 := by
  rw [leadingSpaceLen_cons_eq_zero_iff]
  refine ⟨asciiSpace_of_printable c h1, ?_⟩
  intro e he hp
  have hlen := unicodeSpaceEncodings_length e he
  cases e with
  | nil => simp at hlen
  | cons b t =>
    have hb := unicodeSpaceEncodings_head _ he b (by simp)
    simp only [List.map_cons] at hp
    have hbc : b = c.toNat := (List.cons_prefix_cons.1 hp).1
    have h3 : c.toNat ≤ ('~' : Char).toNat := (char_le_iff _ _).1 h2
    have h4 : ('~' : Char).toNat = 126 := by decide
    omega

theorem trailingSpaceLen_of_printable (s : Str) (c : Char) (h1 : '!' ≤ c) (h2 : c ≤ '~') :
    trailingSpaceLen (s ++ [c]) = 0 := by
  unfold trailingSpaceLen
  simp only [List.reverse_append, List.reverse_cons, List.reverse_nil, List.nil_append,
    List.singleton_append, asciiSpace_of_printable c h1, Bool.false_eq_true, if_false]
  have hf : unicodeSpaceEncodings.find?
      (fun e => e.reverse.isPrefixOf ((c :: s.reverse).map Char.toNat)) = none := by
    apply List.find?_eq_none.2
    intro e he hp
    have hp := List.isPrefixOf_iff_prefix.1 hp
    have hlen := unicodeSpaceEncodings_length e he
    cases hr : e.reverse with
    | nil =>
      have he0 : e = [] := by simpa using hr
      rw [he0] at hlen
      simp at hlen
    | cons b t =>
      have hb := unicodeSpaceEncodings_last _ he b (by simp [hr])
      rw [hr] at hp
      simp only [List.map_cons] at hp
      have hbc : b = c.toNat := (List.cons_prefix_cons.1 hp).1
      have h3 : c.toNat ≤ ('~' : Char).toNat := (char_le_iff _ _).1 h2
      have h4 : ('~' : Char).toNat = 126 := by decide
      omega
  rw [hf]

theorem TrimSpace_of_no_space (s : Str) (h1 : leadingSpaceLen s = 0)
    (h2 : trailingSpaceLen s = 0) : TrimSpace s = s := by
  have hl : trimLeftSpace s.length s = s := by
    cases s.length with
    | zero => rfl
    | succ k => simp only [trimLeftSpace, h1]
  unfold TrimSpace
  simp only [hl]
  cases s.length with
  | zero => rfl
  | succ k => simp only [trimRightSpace, h2]

theorem TrimSpace_of_token (s : Str) (h : IsToken s) : TrimSpace s = s := by
  obtain ⟨hne, hall⟩ := h
  cases s with
  | nil => exact absurd rfl hne
  | cons a t =>
    have h1 := leadingSpaceLen_of_printable a t (hall a (by simp)).1 (hall a (by simp)).2
    refine TrimSpace_of_no_space _ h1 ?_
    have hl : (a :: t) = (a :: t).dropLast ++ [(a :: t).getLast (by simp)] :=
      (List.dropLast_append_getLast _).symm
    rw [hl]
    have hm := hall _ (List.getLast_mem (l := a :: t) (by simp))
    exact trailingSpaceLen_of_printable _ _ hm.1 hm.2

/-! ## The scanner of `fmt.Sscanf` -/

end GGProxy
